import Mathlib

/-!
# Webhook interceptors of `tektoncd/triggers` (fork `bigkevmcd/triggers`)

A shallow embedding of `pkg/interceptors/gitlab/gitlab.go` and of
`pkg/interceptors/formdecode/formdecode.go` together with the collaborators
they call, and the properties of their `Interceptor.ExecuteTrigger`.

Conventions of the embedding

* A Go `string` and a Go `[]byte` are both immutable byte sequences and the
  conversion `string(b)` copies the bytes unchanged; both are carried as
  `String`. The provider interceptors only compare and concatenate them; the
  form-decode interceptor works on their bytes, see there.
* A Go `error` is carried as its message; `fmt.Errorf("ctx: %w", err)` is the
  concatenation of the context and the message of `err`.
* A nil pointer or nil interface is `none`.
* A run-time panic is the outcome `Outcome.fault`.
-/

set_option autoImplicit false

namespace Triggers

/-- Byte sequences (`[]byte`). -/
abbrev Bytes := String

/-- Go errors, carried as their message. -/
abbrev Error := String

deriving instance DecidableEq for Except

/-! ## `net/textproto` and `net/http` headers -/

/-- Token bytes of RFC 7230, the bytes `net/textproto` accepts in a header
field name: letters, digits and ``!#$%&'*+-.^_`|~``. -/
def validHeaderFieldByte (c : Char) : Bool :=
  let n := c.toNat
  decide ((48 ≤ n ∧ n ≤ 57) ∨ (65 ≤ n ∧ n ≤ 90) ∨ (97 ≤ n ∧ n ≤ 122)
    ∨ n ∈ [33, 35, 36, 37, 38, 39, 42, 43, 45, 46, 94, 95, 96, 124, 126])

/-- The rewriting loop of `textproto.canonicalMIMEHeaderKey`: the first letter
and every letter after a hyphen is upper-cased, every other letter is
lower-cased. `upper` says whether the next letter starts a word. -/
def canonicalLoop : Bool → List Char → List Char
  | _, [] => []
  | upper, c :: rest =>
    let n := c.toNat
    let c1 : Char :=
      if upper && decide (97 ≤ n ∧ n ≤ 122) then Char.ofNat (n - 32)
      else if !upper && decide (65 ≤ n ∧ n ≤ 90) then Char.ofNat (n + 32)
      else c
    c1 :: canonicalLoop (c1 == '-') rest

/-- The canonical format of a MIME header key (`textproto.CanonicalMIMEHeaderKey`):
a key holding a byte that is not a token byte is returned unchanged. -/
def CanonicalMIMEHeaderKey (s : String) : String :=
  if s.data.all validHeaderFieldByte then String.mk (canonicalLoop true s.data) else s

/-- The Go type `http.Header` (`map[string][]string`) as an association list;
the first entry of a key is the map's entry. -/
structure Header where
  entries : List (String × List String)
deriving DecidableEq, Repr

/-- `http.Header.Get`: the first value under the canonical form of `key`, or
the empty string when there is none. -/
def Header.Get (h : Header) (key : String) : String :=
  match h.entries.lookup (CanonicalMIMEHeaderKey key) with
  | some (v :: _) => v
  | _ => ""

/-- `http.Header.Add`: appends `value` to the values under the canonical form of
`key`. -/
def Header.Add (h : Header) (key value : String) : Header :=
  let k := CanonicalMIMEHeaderKey key
  match h.entries.lookup k with
  | some vs => ⟨(k, vs ++ [value]) :: h.entries.filter (fun e => e.1 != k)⟩
  | none => ⟨h.entries ++ [(k, [value])]⟩

/-! ## `go-scm` webhooks and the request context -/

/-- The repository of a hook (`scm.Repository`), by its identifier. -/
structure Repository where
  ID : String
deriving DecidableEq, Repr

/-- The normalized hook (`scm.Webhook`) the provider parser produces. -/
inductive Webhook
  | PushHook (Ref : String) (Repo : Repository)
  | PullRequestHook (Action : String) (Repo : Repository)
  | Other (kind : String)
deriving DecidableEq, Repr

/-- One value of a `context.Context` chain: a hook stored under the private key
of the `interceptors` package, or a value some other package stored under a key
of its own. -/
inductive CtxEntry
  | hook (h : Webhook)
  | foreign (key value : String)
deriving DecidableEq, Repr

/-- A `context.Context`: the chain of values, the most recent first; the empty
chain is `context.Background()`. -/
abbrev Context := List CtxEntry

/-- Modelled from the spec: `interceptors.WithHook` is defined in a file of the
package that is not among the sources (only its test is). Spec 4.5:
"`withHook(ctx, hook) -> ctx'` attaches the hook under a private,
collision-resistant key"; "attaching twice shadows the earlier value". -/
def WithHook (ctx : Context) (hook : Webhook) : Context :=
  CtxEntry.hook hook :: ctx

/-- Modelled from the spec: `interceptors.InterceptedHook` is defined in a file
of the package that is not among the sources (only its test is). Spec 4.5:
"`hookFrom(ctx) -> (hook, found)` retrieves it"; the test expects a nil hook and
`false` on a context that holds none. -/
def InterceptedHook : Context → Option Webhook × Bool
  | [] => (none, false)
  | CtxEntry.hook h :: _ => (some h, true)
  | CtxEntry.foreign _ _ :: rest => InterceptedHook rest

/-! ## Requests and responses -/

/-- An `io.ReadCloser`: what draining it yields, the bytes or a read error. -/
structure ReadCloser where
  content : Except Error Bytes
deriving DecidableEq

/-- `ioutil.ReadAll`. -/
def ReadAll (r : ReadCloser) : Except Error Bytes :=
  r.content

/-- The fields of `http.Request` the provider interceptors use. `Body` is `none`
for a nil body. -/
structure Request where
  Body : Option ReadCloser
  Header : Header
  ctx : Context

/-- `(*http.Request).Context`. -/
def Request.Context (r : Request) : Context :=
  r.ctx

/-- The fields of `http.Response` the interceptors fill in; `Body` holds the
bytes of the buffer the response body reads from. -/
structure Response where
  Header : Header
  Body : Bytes
deriving DecidableEq, Repr

/-- What a call of `ExecuteTrigger` does: it panics, or it returns its three
results `(context.Context, *http.Response, error)`. -/
inductive Outcome
  | fault
  | returned (ctx : Option Context) (resp : Option Response) (err : Option Error)
deriving DecidableEq, Repr

/-- The call returned with a nil error. -/
def Outcome.succeeded : Outcome → Bool
  | Outcome.returned _ _ none => true
  | _ => false

/-- The call returned with a non-nil error. -/
def Outcome.failed : Outcome → Bool
  | Outcome.returned _ _ (some _) => true
  | _ => false

/-! ## Configuration and collaborators -/

/-- The Go type `triggersv1.SecretRef`. -/
structure SecretRef where
  SecretKey : String
  SecretName : String
  Namespace : String
deriving DecidableEq, Repr

/-- The Go type `triggersv1.GitLabInterceptor`; a nil `SecretRef` and a nil
`EventTypes` are `none`, and `some []` is a non-nil slice of length zero. -/
structure GitLabInterceptor where
  SecretRef : Option SecretRef
  EventTypes : Option (List String)
deriving DecidableEq, Repr

/-- The secret store behind `kubernetes.Interface`, as far as the interceptors
use it: what resolving a secret reference from a namespace yields. -/
structure KubeClientSet where
  resolve : SecretRef → String → Except Error Bytes

/-- `interceptors.GetSecretToken`, whose body is not among the sources: the
bytes stored under the reference, or the error of the lookup, as the client
gives them. -/
def GetSecretToken (cs : KubeClientSet) (sr : SecretRef)
    (eventListenerNamespace : String) : Except Error Bytes :=
  cs.resolve sr eventListenerNamespace

/-- The callback type `scm.SecretFunc`. -/
abbrev SecretFunc := Webhook → Except Error String

/-- The webhook service of the provider client (`scm.Client.Webhooks`), by the
function that parses a buffered payload and its headers into a hook. -/
structure WebhookService where
  parseHook : Header → Bytes → Except Error Webhook

/-- Modelled from the spec: `Webhooks.Parse` of the GitLab driver is code of the
provider library, not of this repository. Spec 4.4 and 6: it parses the buffered
body and headers into a hook and itself invokes the callback with that hook to
fetch the expected secret; an empty expected token is treated as "skip check";
otherwise the `X-GitLab-Token` header is compared for equality with the token
(spec 4.2) and a difference is a `SignatureMismatch`. -/
def WebhookService.Parse (s : WebhookService) (header : Header) (data : Bytes)
    (fn : SecretFunc) : Except Error Webhook :=
  match s.parseHook header data with
  | Except.error err => Except.error err
  | Except.ok hook =>
    match fn hook with
    | Except.error err => Except.error err
    | Except.ok token =>
      if token = "" then Except.ok hook
      else if token ≠ header.Get "X-GitLab-Token" then Except.error "SignatureMismatch"
      else Except.ok hook

/-- `http.Header.Set`: replaces the values under the canonical form of `key` by
the single value `value`. -/
def Header.Set (h : Header) (key value : String) : Header :=
  let k := CanonicalMIMEHeaderKey key
  ⟨(k, [value]) :: h.entries.filter (fun e => e.1 != k)⟩

namespace FormDecode

/-! ## The form-decode interceptor (`pkg/interceptors/formdecode/formdecode.go`)

The interceptor calls `net/http`, `net/url` and `encoding/json` of Go's
standard library; they are embedded as the Go release of the repository's time
(Go 1.13) defines them. In this part the bytes of a string matter: a string is
carried as a `String` whose characters are its bytes, so every character has a
code below 256 and a non-ASCII rune is the sequence of its UTF-8 bytes. -/

/-- Functions of Go's standard library that the embedding takes as given:
`mime.ParseMediaType`, by the media type and the error it returns, and
`strconv.Quote`. -/
structure GoLib where
  ParseMediaType : String → String × Option Error
  Quote : String → String

/-- The Go type `url.Values` (`map[string][]string`) as an association list
with one entry for each key, in the order in which the keys were first set. A
value list of length zero stands for an empty slice. -/
abbrev Values := List (String × List String)

/-- The statement `m[key] = append(m[key], value)` of `url.parseQuery`. -/
def appendValue : Values → String → String → Values
  | [], key, value => [(key, [value])]
  | (k, vs) :: rest, key, value =>
    if k = key then (k, vs ++ [value]) :: rest else (k, vs) :: appendValue rest key value

/-- `url.ishex`. -/
def ishex (c : Char) : Bool :=
  let n := c.toNat
  decide ((48 ≤ n ∧ n ≤ 57) ∨ (97 ≤ n ∧ n ≤ 102) ∨ (65 ≤ n ∧ n ≤ 70))

/-- `url.unhex`. -/
def unhex (c : Char) : Nat :=
  let n := c.toNat
  if 48 ≤ n ∧ n ≤ 57 then n - 48
  else if 97 ≤ n ∧ n ≤ 102 then n - 97 + 10
  else if 65 ≤ n ∧ n ≤ 70 then n - 65 + 10
  else 0

/-- `url.unescape` in the mode `encodeQueryComponent`: `%XX` is the byte with
that hexadecimal code and `+` is a space. A `%` that is not followed by two
hexadecimal digits is an error, which carries the `%` and at most the two bytes
after it. -/
def unescape : List Char → Except (List Char) (List Char)
  | [] => Except.ok []
  | c :: rest =>
    if c = '%' then
      match rest with
      | a :: b :: rest2 =>
        if ishex a && ishex b then
          match unescape rest2 with
          | Except.ok t => Except.ok (Char.ofNat (16 * unhex a + unhex b) :: t)
          | Except.error frag => Except.error frag
        else Except.error [c, a, b]
      | _ => Except.error (c :: rest)
    else
      match unescape rest with
      | Except.ok t => Except.ok ((if c = '+' then ' ' else c) :: t)
      | Except.error frag => Except.error frag

/-- `url.QueryUnescape`; the error is an `url.EscapeError`, whose message quotes
the offending fragment. -/
def QueryUnescape (lib : GoLib) (s : List Char) : Except Error String :=
  match unescape s with
  | Except.ok t => Except.ok (String.mk t)
  | Except.error frag => Except.error ("invalid URL escape " ++ lib.Quote (String.mk frag))

/-- The pieces of a query between the separators `&` and `;`
(`strings.IndexAny(key, "&;")` in the loop of `url.parseQuery`). -/
def segments : List Char → List (List Char)
  | [] => [[]]
  | c :: rest =>
    if c = '&' ∨ c = ';' then [] :: segments rest
    else
      match segments rest with
      | seg :: segs => (c :: seg) :: segs
      | [] => [[c]]

/-- A piece cut at its first `=` (`strings.Index(key, "=")`): the key before it
and the value after it; without `=` the whole piece is the key. -/
def cutEq : List Char → List Char × List Char
  | [] => ([], [])
  | c :: rest =>
    if c = '=' then ([], rest)
    else ((c :: (cutEq rest).1), (cutEq rest).2)

/-- One piece decoded: nothing for an empty piece, which the loop skips,
otherwise the key and the value, or the error of the one that does not
unescape. -/
def decodeSegment (lib : GoLib) (seg : List Char) : Option (Except Error (String × String)) :=
  if seg = [] then none
  else
    match QueryUnescape lib (cutEq seg).1 with
    | Except.error err => some (Except.error err)
    | Except.ok key =>
      match QueryUnescape lib (cutEq seg).2 with
      | Except.error err => some (Except.error err)
      | Except.ok value => some (Except.ok (key, value))

/-- One round of the loop of `url.parseQuery` on the map and the first error so
far. -/
def parseSegment (lib : GoLib) (acc : Values × Option Error) (seg : List Char) :
    Values × Option Error :=
  match decodeSegment lib seg with
  | none => acc
  | some (Except.error err) =>
    (acc.1, match acc.2 with
      | none => some err
      | some first => some first)
  | some (Except.ok (key, value)) => (appendValue acc.1 key value, acc.2)

/-- `url.ParseQuery`: the values of every piece that decodes, and the first
error met. -/
def ParseQuery (lib : GoLib) (query : String) : Values × Option Error :=
  (segments query.data).foldl (parseSegment lib) ([], none)

/-- The key and the value of every piece of a query that decodes, in the order
in which the pieces appear. -/
def queryPairs (lib : GoLib) (query : String) : List (String × String) :=
  (segments query.data).filterMap (fun seg =>
    match decodeSegment lib seg with
    | some (Except.ok kv) => some kv
    | _ => none)

/-- The values that a list of pairs gives to `key`, in their order. -/
def valuesOf (key : String) (pairs : List (String × String)) : List String :=
  (pairs.filter (fun kv => kv.1 = key)).map (fun kv => kv.2)

/-- The Go type `url.URL`, by its raw query. -/
structure URL where
  RawQuery : String
deriving DecidableEq, Repr

/-- The fields of `http.Request` that `ParseForm` and the interceptor use. A nil
`URL`, `Header`, `Body`, `Form` or `PostForm` is `none`. -/
structure Request where
  Method : String
  URL : Option URL
  Header : Option Header
  Body : Option ReadCloser
  Form : Option Values
  PostForm : Option Values

/-- `Header.Get` on a header map that may be nil: reading a nil map finds
nothing. -/
def headerGet (h : Option Header) (key : String) : String :=
  match h with
  | none => ""
  | some hdr => hdr.Get key

/-- The limit `int64(10 << 20)` of `http.parsePostForm`. -/
def maxFormSize : Nat := 10485760

/-- The media type `http.parsePostForm` reads from the `Content-Type` header, an
absent or empty one counting as `application/octet-stream`, with the error of
`mime.ParseMediaType`. -/
def formMediaType (lib : GoLib) (r : Request) : String × Option Error :=
  let ct := headerGet r.Header "Content-Type"
  lib.ParseMediaType (if ct = "" then "application/octet-stream" else ct)

/-- `http.parsePostForm` for a body that is not a `maxBytesReader`: the parsed
values (`none` for nil) and the error. A body that fails to read is taken to
fail within the first `maxFormSize + 1` bytes, which are all that is read. -/
def parsePostForm (lib : GoLib) (r : Request) : Option Values × Option Error :=
  match r.Body with
  | none => (none, some "missing form body")
  | some body =>
    let parsed := formMediaType lib r
    if parsed.1 = "application/x-www-form-urlencoded" then
      match ReadAll body with
      | Except.error e =>
        (none, match parsed.2 with
          | none => some e
          | some first => some first)
      | Except.ok b =>
        if b.length > maxFormSize then (none, some "http: POST too large")
        else
          let q := ParseQuery lib b
          (some q.1, match parsed.2 with
            | none => q.2
            | some first => some first)
    else (none, parsed.2)

/-- `(*http.Request).ParseForm`: the value of `r.PostForm` after the call and
the error returned. The new value of `r.Form`, which the interceptor does not
read, is left out. -/
def ParseForm (lib : GoLib) (r : Request) : Values × Option Error :=
  let post : Option Values × Option Error :=
    match r.PostForm with
    | some vs => (some vs, none)
    | none =>
      if r.Method = "POST" ∨ r.Method = "PUT" ∨ r.Method = "PATCH" then parsePostForm lib r
      else (none, none)
  let postForm : Values :=
    match post.1 with
    | some vs => vs
    | none => []
  let err : Option Error :=
    match r.Form with
    | some _ => post.2
    | none =>
      match r.URL with
      | none => post.2
      | some u =>
        match post.2 with
        | none => (ParseQuery lib u.RawQuery).2
        | some first => some first
  (postForm, err)

/-! ### `encoding/json` -/

/-- The digit of `n` in the table `0123456789abcdef` of `encoding/json`. -/
def hexDigit (n : Nat) : Char :=
  if n < 10 then Char.ofNat (48 + n) else Char.ofNat (87 + n)

/-- The encoding of one ASCII byte inside a JSON string with HTML escaping on:
the bytes of `htmlSafeSet` are copied, the quote and the backslash get a
backslash, newline, carriage return and tab their letter, and every other byte
(a control character, `<`, `>` or `&`) the form `\u00XX`. -/
def escapeASCII (c : Char) : List Char :=
  let n := c.toNat
  if 32 ≤ n ∧ n ≠ 34 ∧ n ≠ 38 ∧ n ≠ 60 ∧ n ≠ 62 ∧ n ≠ 92 then [c]
  else if n = 92 ∨ n = 34 then [Char.ofNat 92, c]
  else if n = 10 then [Char.ofNat 92, 'n']
  else if n = 13 then [Char.ofNat 92, 'r']
  else if n = 9 then [Char.ofNat 92, 't']
  else [Char.ofNat 92, 'u', '0', '0', hexDigit (n / 16), hexDigit (n % 16)]

/-- Whether the byte `c` lies between `lo` and `hi`. -/
def inRange (c : Char) (lo hi : Nat) : Bool :=
  decide (lo ≤ c.toNat ∧ c.toNat ≤ hi)

/-- The size `utf8.DecodeRuneInString` reports for a string that starts with a
byte of `0x80` or more: the length of the well-formed UTF-8 sequence at the
head, or `0` where Go reports `RuneError` with size 1. -/
def runeSize : List Char → Nat
  | [] => 0
  | b0 :: rest =>
    let n := b0.toNat
    if 194 ≤ n ∧ n ≤ 223 then
      match rest with
      | b1 :: _ => if inRange b1 128 191 then 2 else 0
      | _ => 0
    else if 224 ≤ n ∧ n ≤ 239 then
      match rest with
      | b1 :: b2 :: _ =>
        if inRange b1 (if n = 224 then 160 else 128) (if n = 237 then 159 else 191)
            && inRange b2 128 191 then 3
        else 0
      | _ => 0
    else if 240 ≤ n ∧ n ≤ 244 then
      match rest with
      | b1 :: b2 :: b3 :: _ =>
        if inRange b1 (if n = 240 then 144 else 128) (if n = 244 then 143 else 191)
            && inRange b2 128 191 && inRange b3 128 191 then 4
        else 0
      | _ => 0
    else 0

/-- The third byte of the rune at the head when that rune is U+2028 or U+2029
(the bytes `E2 80 A8` and `E2 80 A9`). -/
def lineSeparator : List Char → Option Char
  | b0 :: b1 :: b2 :: _ =>
    if b0.toNat = 226 ∧ b1.toNat = 128 ∧ (b2.toNat = 168 ∨ b2.toNat = 169) then some b2 else none
  | _ => none

/-- The loop of `encodeState.string` with HTML escaping on. `copy` and `drop`
count the bytes of the current rune that are still to be copied or to be passed
over. A byte that starts no well-formed sequence becomes the six bytes
`\ufffd`, the runes U+2028 and U+2029 become `\u2028` and `\u2029`, and every
other rune is copied. -/
def encodeLoop : Nat → Nat → List Char → List Char
  | _, _, [] => []
  | copy + 1, drop, c :: rest => c :: encodeLoop copy drop rest
  | 0, drop + 1, _ :: rest => encodeLoop 0 drop rest
  | 0, 0, c :: rest =>
    if c.toNat < 128 then escapeASCII c ++ encodeLoop 0 0 rest
    else
      match runeSize (c :: rest) with
      | 0 => [Char.ofNat 92, 'u', 'f', 'f', 'f', 'd'] ++ encodeLoop 0 0 rest
      | size + 1 =>
        match lineSeparator (c :: rest) with
        | some b2 =>
          [Char.ofNat 92, 'u', '2', '0', '2', hexDigit (b2.toNat % 16)] ++ encodeLoop 0 2 rest
        | none => c :: encodeLoop size 0 rest

/-- `encodeState.string`: a Go string as a JSON string. -/
def encodeString (s : String) : String :=
  String.mk ([Char.ofNat 34] ++ encodeLoop 0 0 s.data ++ [Char.ofNat 34])

/-- The order `<` of Go strings: bytewise, a proper initial part first. -/
def bytesLess : List Char → List Char → Bool
  | _, [] => false
  | [], _ :: _ => true
  | a :: as, b :: bs =>
    if a.toNat < b.toNat then true
    else if b.toNat < a.toNat then false
    else bytesLess as bs

/-- Insertion of an entry into a list sorted by key. -/
def insertByKey {α : Type} (e : String × α) : List (String × α) → List (String × α)
  | [] => [e]
  | x :: rest => if bytesLess e.1.data x.1.data then e :: x :: rest else x :: insertByKey e rest

/-- The entries of a map in the order of their keys, in which `encoding/json`
writes them. -/
def sortByKey {α : Type} (m : List (String × α)) : List (String × α) :=
  m.foldr insertByKey []

/-- The encoding of a map with string keys: the members in key order, separated
by commas, inside braces. -/
def encodeMap {α : Type} (enc : α → String) (m : List (String × α)) : String :=
  "\x7b" ++ ",".intercalate ((sortByKey m).map (fun e => encodeString e.1 ++ ":" ++ enc e.2))
    ++ "\x7d"

/-- The encoding of a `[]string` that is not nil. -/
def encodeStrings (vs : List String) : String :=
  "[" ++ ",".intercalate (vs.map encodeString) ++ "]"

/-- What the interceptor marshals under the prefix: the posted values
(`url.Values`) or the flattened map (`map[string]string`). -/
inductive FormData
  | values (m : Values)
  | flattened (m : List (String × String))
deriving DecidableEq, Repr

/-- `json.Marshal` of `map[string]interface{}{key: data}`. Strings, slices of
strings and maps of them always marshal, so there is no error. -/
def Marshal (key : String) (data : FormData) : Bytes :=
  "\x7b" ++ encodeString key ++ ":" ++
    (match data with
      | FormData.values m => encodeMap encodeStrings m
      | FormData.flattened m => encodeMap encodeString m)
    ++ "\x7d"

/-! ### The interceptor -/

/-- The Go type `triggersv1.FormDecodeInterceptor`. -/
structure FormDecodeInterceptor where
  Prefix : String
  Flatten : Bool
deriving DecidableEq, Repr

/-- The Go type `formdecode.Interceptor` (the logger is left out). -/
structure Interceptor where
  FormDecode : FormDecodeInterceptor

/-- `flattenMap` of formdecode.go 67-73: every key with the first of its values;
`none` when the index `v[0]` is out of range, which is a panic. -/
def flattenMap : Values → Option (List (String × String))
  | [] => some []
  | (k, v) :: rest =>
    match v with
    | [] => none
    | first :: _ =>
      match flattenMap rest with
      | none => none
      | some flattened => some ((k, first) :: flattened)

/-- What a call of the form-decode `ExecuteTrigger` does: it panics, or it
returns its two results `(*http.Response, error)`. -/
inductive Outcome
  | fault
  | returned (resp : Option Response) (err : Option Error)
deriving DecidableEq, Repr

/-- `(*Interceptor).ExecuteTrigger` of formdecode.go 44-65. `json.Marshal` cannot
fail on the data it is given here, so the return of line 57 does not occur. -/
def ExecuteTrigger (lib : GoLib) (w : Interceptor) (r : Request) : Outcome :=
  match ParseForm lib r with
  | (_, some err) => Outcome.returned none (some ("failed to parse form data: " ++ err))
  | (postForm, none) =>
    let data : Option FormData :=
      if w.FormDecode.Flatten then
        match flattenMap postForm with
        | none => none
        | some flattened => some (FormData.flattened flattened)
      else some (FormData.values postForm)
    match data with
    | none => Outcome.fault
    | some d =>
      let payload := Marshal w.FormDecode.Prefix d
      match r.Header with
      | none =>
        -- `r.Header.Set` assigns to a nil map
        Outcome.fault
      | some h =>
        Outcome.returned
          (some { Header := h.Set "Content-Type" "application/json", Body := payload }) none

/-! ### Fixtures of the examples (`formdecode_test.go`) -/

/-- A stand-in for the standard library in the examples: it knows the media
types of the tests, and quotes a fragment by putting it between quotes, which is
what `strconv.Quote` does to printable ASCII without quotes and backslashes. -/
def exampleLib : GoLib where
  ParseMediaType := fun v =>
    if v = "application/x-www-form-urlencoded" ∨ v = "application/json"
        ∨ v = "application/octet-stream" then (v, none)
    else ("", some "mime: unknown media type")
  Quote := fun s => "\"" ++ s ++ "\""

/-- The request of the tests: the given method, a readable body and the form
content type. -/
def formRequest (method payload : String) : Request :=
  { Method := method, URL := none,
    Header := some ⟨[("Content-Type", ["application/x-www-form-urlencoded"])]⟩,
    Body := some ⟨Except.ok payload⟩, Form := none, PostForm := none }

/-- A body of `maxFormSize + 1` bytes, each the letter `a`: one key without a
value. -/
def largeBody : String :=
  String.mk (List.replicate 10485761 'a')

/-- The headers of the response to `formRequest`. -/
def jsonHeader : Header :=
  ⟨[("Content-Type", ["application/json"])]⟩

end FormDecode

namespace GitLab

/-- The Go type `gitlab.Interceptor` (the logger is left out). -/
structure Interceptor where
  KubeClientSet : KubeClientSet
  GitLab : GitLabInterceptor
  EventListenerNamespace : String
  scmClient : WebhookService

/-- The function literal `ExecuteTrigger` hands to `Parse` (gitlab.go 66-75). -/
def secretFunc (w : Interceptor) : SecretFunc := fun _ =>
  match w.GitLab.SecretRef with
  | none => Except.ok ""
  | some ref =>
    match GetSecretToken w.KubeClientSet ref w.EventListenerNamespace with
    | Except.error _ => Except.ok ""
    | Except.ok b => Except.ok b

/-- The loop of gitlab.go 84-90: whether `actualEvent` equals an entry of the
list, stopping at the first that does. -/
def isAllowed (actualEvent : String) : List String → Bool
  | [] => false
  | allowedEvent :: rest =>
    if actualEvent = allowedEvent then true else isAllowed actualEvent rest

/-- The event-type check of gitlab.go 82-94: the error it returns, if any. -/
def eventCheck (w : Interceptor) (request : Request) : Option Error :=
  match w.GitLab.EventTypes with
  | none => none
  | some eventTypes =>
    let actualEvent := request.Header.Get "X-GitLab-Event"
    if !isAllowed actualEvent eventTypes then
      some ("event type " ++ actualEvent ++ " is not allowed")
    else none

/-- `(*Interceptor).ExecuteTrigger` of gitlab.go 54-100. -/
def ExecuteTrigger (w : Interceptor) (request : Request) : Outcome :=
  match request.Body with
  | none =>
    -- `defer request.Body.Close()` and `ioutil.ReadAll(request.Body)` on a nil interface
    Outcome.fault
  | some body =>
    match ReadAll body with
    | Except.error err =>
      Outcome.returned none none (some ("failed to read request body: " ++ err))
    | Except.ok payload =>
      match w.scmClient.Parse request.Header payload (secretFunc w) with
      | Except.error err =>
        Outcome.returned none none (some ("failed to parse the webhook: " ++ err))
      | Except.ok hook =>
        let ctx := WithHook request.Context hook
        match eventCheck w request with
        | some err => Outcome.returned none none (some err)
        | none =>
          Outcome.returned (some ctx) (some { Header := request.Header, Body := payload }) none

/-! ## Fixtures of the examples

The configurations and requests of `gitlab_test.go`. -/

/-- A parsing collaborator for the examples: under the event `Push Hook` it
reads the two payloads the tests of the package send, the second as the push
hook those tests expect; anything else is an error. -/
def exampleClient : WebhookService where
  parseHook := fun header data =>
    if header.Get "X-GitLab-Event" = "Push Hook" then
      if data = "\x7b\x7d" then Except.ok (Webhook.PushHook "" ⟨""⟩)
      else if data = "\x7b\"ref\":\"refs/heads/master\",\"project\":\x7b\"id\":15\x7d\x7d" then
        Except.ok (Webhook.PushHook "refs/heads/master" ⟨"15"⟩)
      else Except.error "invalid payload"
    else Except.error "unknown webhook"

/-- The request the test harness builds (gitlab_test.go 223-234): a readable
body, a content type, and the token and event headers when they are not empty. -/
def testRequest (payload token eventType : String) : Request :=
  let h : Header := ⟨[("Content-Type", ["application/json"])]⟩
  let h := if token ≠ "" then h.Add "X-GitLab-Token" token else h
  let h := if eventType ≠ "" then h.Add "X-GitLab-Event" eventType else h
  { Body := some ⟨Except.ok payload⟩, Header := h, ctx := [] }

/-- The secret reference of the tests. -/
def mysecret : SecretRef :=
  { SecretKey := "token", SecretName := "mysecret", Namespace := "" }

/-- A store holding `value` under the key `token` of the secret `mysecret`. -/
def secretStore (value : Bytes) : KubeClientSet where
  resolve := fun sr _ =>
    if sr.SecretName = "mysecret" ∧ sr.SecretKey = "token" then Except.ok value
    else Except.error "secret not found"

/-- A store in which no secret exists: every lookup fails. -/
def missingStore : KubeClientSet where
  resolve := fun _ _ => Except.error "secrets \"mysecret\" not found"

/-- An interceptor over the example parser with the given store and
configuration. -/
def testInterceptor (cs : KubeClientSet) (gl : GitLabInterceptor) : Interceptor :=
  { KubeClientSet := cs, GitLab := gl, EventListenerNamespace := "", scmClient := exampleClient }

/-- The headers of `testRequest` with token `foo` and event `Push Hook`. -/
def fooPushHeader : Header :=
  ⟨[("Content-Type", ["application/json"]), ("X-Gitlab-Token", ["foo"]),
    ("X-Gitlab-Event", ["Push Hook"])]⟩

/-! ## Auxiliary facts -/

theorem isAllowed_iff_mem (actualEvent : String) (eventTypes : List String) :
    isAllowed actualEvent eventTypes = true ↔ actualEvent ∈ eventTypes := by
  induction eventTypes with
  | nil => simp [isAllowed]
  | cons allowedEvent rest ih =>
    unfold isAllowed
    by_cases h : actualEvent = allowedEvent
    · simp [h]
    · simp [h, ih]

/-- Once the body is read and the fused parse-and-verify call has produced a
hook, the outcome is decided by the event check alone. -/
theorem executeTrigger_parsed (w : Interceptor) (request : Request) (body : ReadCloser)
    (payload : Bytes) (hook : Webhook)
    (hbody : request.Body = some body) (hread : ReadAll body = Except.ok payload)
    (hparse : w.scmClient.Parse request.Header payload (secretFunc w) = Except.ok hook) :
    ExecuteTrigger w request =
      match eventCheck w request with
      | some err => Outcome.returned none none (some err)
      | none =>
        Outcome.returned (some (WithHook request.Context hook))
          (some { Header := request.Header, Body := payload }) none := by
  unfold ExecuteTrigger
  simp only [hbody, hread, hparse]

/-- With a callback that answers the empty token, `Parse` is the payload parser. -/
theorem parse_empty_token (s : WebhookService) (header : Header) (data : Bytes)
    (fn : SecretFunc) (hfn : ∀ hook, fn hook = Except.ok "") :
    s.Parse header data fn = s.parseHook header data := by
  unfold WebhookService.Parse
  cases h : s.parseHook header data with
  | error err => rfl
  | ok hook => simp [hfn hook]

/-- With a callback that answers a non-empty token, `Parse` succeeds exactly
when the payload parses and the token header equals the token. -/
theorem parse_token_ok_iff (s : WebhookService) (header : Header) (data : Bytes)
    (fn : SecretFunc) (token : String) (hook : Webhook)
    (hfn : ∀ hook, fn hook = Except.ok token) (hne : token ≠ "") :
    s.Parse header data fn = Except.ok hook ↔
      s.parseHook header data = Except.ok hook ∧ header.Get "X-GitLab-Token" = token := by
  unfold WebhookService.Parse
  cases h : s.parseHook header data with
  | error err => simp
  | ok hook1 =>
    simp only [hfn hook1, hne, if_false]
    by_cases ht : token = header.Get "X-GitLab-Token"
    · simp [← ht]
    · have ht2 : ¬ header.Get "X-GitLab-Token" = token := fun h2 => ht h2.symm
      simp [ht, ht2]

theorem secretFunc_no_secret (w : Interceptor) (h : w.GitLab.SecretRef = none)
    (hook : Webhook) : secretFunc w hook = Except.ok "" := by
  simp [secretFunc, h]

theorem secretFunc_resolved (w : Interceptor) (ref : SecretRef) (secret : Bytes)
    (h : w.GitLab.SecretRef = some ref)
    (hres : GetSecretToken w.KubeClientSet ref w.EventListenerNamespace = Except.ok secret)
    (hook : Webhook) : secretFunc w hook = Except.ok secret := by
  simp [secretFunc, h, hres]

theorem secretFunc_resolve_error (w : Interceptor) (ref : SecretRef) (err : Error)
    (h : w.GitLab.SecretRef = some ref)
    (hres : GetSecretToken w.KubeClientSet ref w.EventListenerNamespace = Except.error err)
    (hook : Webhook) : secretFunc w hook = Except.ok "" := by
  simp [secretFunc, h, hres]

/-- A configured secret that cannot be resolved leaves `ExecuteTrigger` exactly
as it is without a `SecretRef`. -/
theorem executeTrigger_resolve_error (w : Interceptor) (request : Request) (ref : SecretRef)
    (err : Error) (h : w.GitLab.SecretRef = some ref)
    (hres : GetSecretToken w.KubeClientSet ref w.EventListenerNamespace = Except.error err) :
    ExecuteTrigger w request =
      ExecuteTrigger { w with GitLab := { w.GitLab with SecretRef := none } } request := by
  have hfn : secretFunc w =
      secretFunc { w with GitLab := { w.GitLab with SecretRef := none } } := by
    funext hook
    rw [secretFunc_resolve_error w ref err h hres hook]
    rfl
  unfold ExecuteTrigger
  rw [hfn]
  rfl

/-- Every return with an error carries a nil context and a nil response. -/
theorem executeTrigger_error_shape (w : Interceptor) (request : Request)
    (ctx : Option Context) (resp : Option Response) (err : Error)
    (h : ExecuteTrigger w request = Outcome.returned ctx resp (some err)) :
    ctx = none ∧ resp = none := by
  unfold ExecuteTrigger at h
  split at h
  · cases h
  · split at h
    · cases h; exact ⟨rfl, rfl⟩
    · split at h
      · cases h; exact ⟨rfl, rfl⟩
      · split at h
        · cases h; exact ⟨rfl, rfl⟩
        · cases h

/-- A request with a body never makes `ExecuteTrigger` panic. -/
theorem executeTrigger_body_returns (w : Interceptor) (request : Request) (body : ReadCloser)
    (hbody : request.Body = some body) :
    ∃ ctx resp err, ExecuteTrigger w request = Outcome.returned ctx resp err := by
  unfold ExecuteTrigger
  simp only [hbody]
  split
  · exact ⟨_, _, _, rfl⟩
  · split
    · exact ⟨_, _, _, rfl⟩
    · split
      · exact ⟨_, _, _, rfl⟩
      · exact ⟨_, _, _, rfl⟩

/-- A hook that `Parse` returns is the hook the payload parser produced. -/
theorem parse_ok_parseHook (s : WebhookService) (header : Header) (data : Bytes)
    (fn : SecretFunc) (hook : Webhook) (h : s.Parse header data fn = Except.ok hook) :
    s.parseHook header data = Except.ok hook := by
  unfold WebhookService.Parse at h
  cases hp : s.parseHook header data with
  | error err => simp [hp] at h
  | ok hook1 =>
    simp only [hp] at h
    cases hf : fn hook1 with
    | error err => simp [hf] at h
    | ok token =>
      simp only [hf] at h
      by_cases h1 : token = ""
      · simp only [h1, if_true] at h
        exact h
      · simp only [h1, if_false] at h
        by_cases h2 : token ≠ header.Get "X-GitLab-Token"
        · simp [h2] at h
        · simp only [h2, if_false] at h
          exact h

/-! ## Secret resolution and the token check -/

/-- C1. Fail-closed on secret resolution does not hold of the code: with a
`SecretRef` configured and a store in which `GetSecretToken` returns an error,
the callback swallows the error and answers the empty token, so the request of
the test harness with token `foo` is let through with a response. -/
theorem c1_resolution_error_passes_through :
    (testInterceptor missingStore ⟨some mysecret, none⟩).GitLab.SecretRef = some mysecret ∧
    GetSecretToken missingStore mysecret "" = Except.error "secrets \"mysecret\" not found" ∧
    ExecuteTrigger (testInterceptor missingStore ⟨some mysecret, none⟩)
        (testRequest "\x7b\x7d" "foo" "Push Hook") =
      Outcome.returned (some [CtxEntry.hook (Webhook.PushHook "" ⟨""⟩)])
        (some { Header := fooPushHeader, Body := "\x7b\x7d" }) none := by
  decide

/-! ## The event filter -/

/-- C2. With a non-nil `EventTypes` list, a request whose payload parses and
passes the token check succeeds if and only if the value of its `X-GitLab-Event`
header is equal, as a whole string, to an entry of the list. -/
theorem c2_event_filter_iff (w : Interceptor) (request : Request) (body : ReadCloser)
    (payload : Bytes) (hook : Webhook) (eventTypes : List String)
    (hbody : request.Body = some body) (hread : ReadAll body = Except.ok payload)
    (hparse : w.scmClient.Parse request.Header payload (secretFunc w) = Except.ok hook)
    (hlist : w.GitLab.EventTypes = some eventTypes) :
    (ExecuteTrigger w request).succeeded = true ↔
      request.Header.Get "X-GitLab-Event" ∈ eventTypes := by
  rw [executeTrigger_parsed w request body payload hook hbody hread hparse,
    ← isAllowed_iff_mem]
  unfold eventCheck
  simp only [hlist]
  cases hal : isAllowed (request.Header.Get "X-GitLab-Event") eventTypes <;>
    simp [Outcome.succeeded]

/-- C2 at the request of the test `valid event`: the event `Push Hook` is in the
list `Push Hook`, `Merge Request Hook`, and the request succeeds. -/
theorem c2_event_filter_iff_witness :
    ((ExecuteTrigger (testInterceptor missingStore ⟨none, some ["Push Hook", "Merge Request Hook"]⟩)
        (testRequest "\x7b\x7d" "" "Push Hook")).succeeded = true ↔
      (testRequest "\x7b\x7d" "" "Push Hook").Header.Get "X-GitLab-Event"
        ∈ ["Push Hook", "Merge Request Hook"]) ∧
    (testRequest "\x7b\x7d" "" "Push Hook").Header.Get "X-GitLab-Event" = "Push Hook" :=
  ⟨c2_event_filter_iff (testInterceptor missingStore ⟨none, some ["Push Hook", "Merge Request Hook"]⟩)
      (testRequest "\x7b\x7d" "" "Push Hook") ⟨Except.ok "\x7b\x7d"⟩ "\x7b\x7d"
      (Webhook.PushHook "" ⟨""⟩) ["Push Hook", "Merge Request Hook"]
      (by decide) (by decide) (by decide) (by decide),
    by decide⟩

/-- C3 fails for a list that is set but empty: with `EventTypes` a non-nil
slice of length zero and no secret, the request of the test `no secret`, whose
payload parses, is rejected on its event type. -/
theorem c3_empty_list_rejects :
    (testInterceptor missingStore ⟨none, some []⟩).GitLab.EventTypes = some [] ∧
    exampleClient.Parse (testRequest "\x7b\x7d" "foo" "Push Hook").Header "\x7b\x7d"
        (secretFunc (testInterceptor missingStore ⟨none, some []⟩)) =
      Except.ok (Webhook.PushHook "" ⟨""⟩) ∧
    ExecuteTrigger (testInterceptor missingStore ⟨none, some []⟩)
        (testRequest "\x7b\x7d" "foo" "Push Hook") =
      Outcome.returned none none (some "event type Push Hook is not allowed") := by
  decide

/-- C3 as amended. For a request whose payload parses and passes the token
check: when `EventTypes` is nil the request succeeds whatever its `X-GitLab-Event`
header holds, and when `EventTypes` is a non-nil list of length zero the request
is rejected with the event-type error. -/
theorem c3_unset_list_allows_all (w : Interceptor) (request : Request) (body : ReadCloser)
    (payload : Bytes) (hook : Webhook)
    (hbody : request.Body = some body) (hread : ReadAll body = Except.ok payload)
    (hparse : w.scmClient.Parse request.Header payload (secretFunc w) = Except.ok hook) :
    (w.GitLab.EventTypes = none →
      ExecuteTrigger w request =
        Outcome.returned (some (WithHook request.Context hook))
          (some { Header := request.Header, Body := payload }) none) ∧
    (w.GitLab.EventTypes = some [] →
      ExecuteTrigger w request =
        Outcome.returned none none
          (some ("event type " ++ request.Header.Get "X-GitLab-Event" ++ " is not allowed"))) := by
  rw [executeTrigger_parsed w request body payload hook hbody hread hparse]
  unfold eventCheck
  constructor
  · intro hnil
    simp only [hnil]
  · intro hempty
    simp only [hempty, isAllowed]
    rfl

/-- C3 as amended, at a request without an `X-GitLab-Event` header and a parser
that accepts every payload: with `EventTypes` nil it succeeds, and with
`EventTypes` set to the empty list it is rejected, the event named in the error
being the empty string. -/
theorem c3_unset_list_allows_all_witness :
    ExecuteTrigger ⟨missingStore, ⟨none, none⟩, "", ⟨fun _ _ => Except.ok (Webhook.Other "any")⟩⟩
        ⟨some ⟨Except.ok "payload"⟩, ⟨[]⟩, []⟩ =
      Outcome.returned (some [CtxEntry.hook (Webhook.Other "any")])
        (some { Header := ⟨[]⟩, Body := "payload" }) none ∧
    ExecuteTrigger ⟨missingStore, ⟨none, some []⟩, "", ⟨fun _ _ => Except.ok (Webhook.Other "any")⟩⟩
        ⟨some ⟨Except.ok "payload"⟩, ⟨[]⟩, []⟩ =
      Outcome.returned none none
        (some ("event type " ++ Header.Get ⟨[]⟩ "X-GitLab-Event" ++ " is not allowed")) :=
  ⟨(c3_unset_list_allows_all
      ⟨missingStore, ⟨none, none⟩, "", ⟨fun _ _ => Except.ok (Webhook.Other "any")⟩⟩
      ⟨some ⟨Except.ok "payload"⟩, ⟨[]⟩, []⟩ ⟨Except.ok "payload"⟩ "payload" (Webhook.Other "any")
      rfl rfl (by decide)).1 rfl,
    (c3_unset_list_allows_all
      ⟨missingStore, ⟨none, some []⟩, "", ⟨fun _ _ => Except.ok (Webhook.Other "any")⟩⟩
      ⟨some ⟨Except.ok "payload"⟩, ⟨[]⟩, []⟩ ⟨Except.ok "payload"⟩ "payload" (Webhook.Other "any")
      rfl rfl (by decide)).2 rfl⟩

/-- C4 fails for a secret whose value is empty: the secret resolves to the
empty value, the token `foo` of the request differs from it, and the request is
accepted, the hook attached to the returned context. -/
theorem c4_empty_secret_accepts_mismatch :
    GetSecretToken (secretStore "") mysecret "" = Except.ok "" ∧
    (testRequest "\x7b\x7d" "foo" "Push Hook").Header.Get "X-GitLab-Token" = "foo" ∧
    ExecuteTrigger (testInterceptor (secretStore "") ⟨some mysecret, none⟩)
        (testRequest "\x7b\x7d" "foo" "Push Hook") =
      Outcome.returned (some [CtxEntry.hook (Webhook.PushHook "" ⟨""⟩)])
        (some { Header := fooPushHeader, Body := "\x7b\x7d" }) none := by
  decide

/-- C4 as amended. For every request that carries a body: if a `SecretRef` is
configured and resolves to a secret value that is not empty, and the value of
the `X-GitLab-Token` header is not equal to that secret, `ExecuteTrigger`
returns an error, and the returned context and response are nil. -/
theorem c4_token_mismatch_rejects (w : Interceptor) (request : Request) (body : ReadCloser)
    (ref : SecretRef) (secret : Bytes)
    (hbody : request.Body = some body)
    (href : w.GitLab.SecretRef = some ref)
    (hres : GetSecretToken w.KubeClientSet ref w.EventListenerNamespace = Except.ok secret)
    (hne : secret ≠ "")
    (hmis : request.Header.Get "X-GitLab-Token" ≠ secret) :
    ∃ err, ExecuteTrigger w request = Outcome.returned none none (some err) := by
  unfold ExecuteTrigger
  simp only [hbody]
  cases hread : ReadAll body with
  | error err => exact ⟨_, rfl⟩
  | ok payload =>
    simp only []
    cases hparse : w.scmClient.Parse request.Header payload (secretFunc w) with
    | error err => exact ⟨_, rfl⟩
    | ok hook =>
      exact absurd ((parse_token_ok_iff w.scmClient request.Header payload (secretFunc w)
        secret hook (secretFunc_resolved w ref secret href hres) hne).1 hparse).2 hmis

/-- C4 as amended, at the test `invalid header for secret`: the secret is
`secrettoken`, the token of the request is `foo`, and the call returns an error
with nil context and response. -/
theorem c4_token_mismatch_rejects_witness :
    ∃ err, ExecuteTrigger (testInterceptor (secretStore "secrettoken") ⟨some mysecret, none⟩)
      (testRequest "somepayload" "foo" "") = Outcome.returned none none (some err) :=
  c4_token_mismatch_rejects (testInterceptor (secretStore "secrettoken") ⟨some mysecret, none⟩)
    (testRequest "somepayload" "foo" "") ⟨Except.ok "somepayload"⟩ mysecret "secrettoken"
    (by decide) (by decide) (by decide) (by decide) (by decide)

/-- C5. With no `SecretRef`, a request whose payload parses and whose event type
is allowed succeeds, whatever its `X-GitLab-Token` header holds: no hypothesis
constrains that header. -/
theorem c5_no_secret_no_check (w : Interceptor) (request : Request) (body : ReadCloser)
    (payload : Bytes) (hook : Webhook)
    (hbody : request.Body = some body) (hread : ReadAll body = Except.ok payload)
    (hparse : w.scmClient.parseHook request.Header payload = Except.ok hook)
    (hevent : ∀ eventTypes, w.GitLab.EventTypes = some eventTypes →
      request.Header.Get "X-GitLab-Event" ∈ eventTypes)
    (hnosecret : w.GitLab.SecretRef = none) :
    ExecuteTrigger w request =
      Outcome.returned (some (WithHook request.Context hook))
        (some { Header := request.Header, Body := payload }) none := by
  have hp : w.scmClient.Parse request.Header payload (secretFunc w) = Except.ok hook := by
    rw [parse_empty_token w.scmClient request.Header payload (secretFunc w)
      (secretFunc_no_secret w hnosecret)]
    exact hparse
  rw [executeTrigger_parsed w request body payload hook hbody hread hp]
  unfold eventCheck
  cases hl : w.GitLab.EventTypes with
  | none => rfl
  | some eventTypes =>
    have hal := (isAllowed_iff_mem _ _).2 (hevent eventTypes hl)
    simp [hal]

/-- C5 at the test `no secret`: token `foo`, event `Push Hook`, no
configuration at all; the request succeeds and the body is returned. The same
request without a token header, against an allow-list that holds its event,
succeeds as well. -/
theorem c5_no_secret_no_check_witness :
    ExecuteTrigger (testInterceptor missingStore ⟨none, none⟩)
        (testRequest "\x7b\x7d" "foo" "Push Hook") =
      Outcome.returned
        (some (WithHook (testRequest "\x7b\x7d" "foo" "Push Hook").Context (Webhook.PushHook "" ⟨""⟩)))
        (some { Header := (testRequest "\x7b\x7d" "foo" "Push Hook").Header, Body := "\x7b\x7d" })
        none ∧
    ExecuteTrigger (testInterceptor missingStore ⟨none, some ["Push Hook", "Merge Request Hook"]⟩)
        (testRequest "\x7b\x7d" "" "Push Hook") =
      Outcome.returned
        (some (WithHook (testRequest "\x7b\x7d" "" "Push Hook").Context (Webhook.PushHook "" ⟨""⟩)))
        (some { Header := (testRequest "\x7b\x7d" "" "Push Hook").Header, Body := "\x7b\x7d" })
        none :=
  ⟨c5_no_secret_no_check (testInterceptor missingStore ⟨none, none⟩)
      (testRequest "\x7b\x7d" "foo" "Push Hook") ⟨Except.ok "\x7b\x7d"⟩ "\x7b\x7d"
      (Webhook.PushHook "" ⟨""⟩) (by decide) (by decide) (by decide)
      (by intro eventTypes h; cases h) rfl,
    c5_no_secret_no_check
      (testInterceptor missingStore ⟨none, some ["Push Hook", "Merge Request Hook"]⟩)
      (testRequest "\x7b\x7d" "" "Push Hook") ⟨Except.ok "\x7b\x7d"⟩ "\x7b\x7d"
      (Webhook.PushHook "" ⟨""⟩) (by decide) (by decide) (by decide)
      (by intro eventTypes h; cases h; decide) rfl⟩

/-! ## Success: the echoed body and the exposed hook -/

/-- C6. With a `SecretRef` configured, the `X-GitLab-Token` header equal to the
resolved secret and no event-type filter, a request with a parseable payload
succeeds; the response body is the request body and the response headers are
the request headers. -/
theorem c6_matching_token_echoes (w : Interceptor) (request : Request) (body : ReadCloser)
    (payload : Bytes) (hook : Webhook) (ref : SecretRef) (secret : Bytes)
    (hbody : request.Body = some body) (hread : ReadAll body = Except.ok payload)
    (hparse : w.scmClient.parseHook request.Header payload = Except.ok hook)
    (href : w.GitLab.SecretRef = some ref)
    (hres : GetSecretToken w.KubeClientSet ref w.EventListenerNamespace = Except.ok secret)
    (htoken : request.Header.Get "X-GitLab-Token" = secret)
    (hnofilter : w.GitLab.EventTypes = none) :
    ExecuteTrigger w request =
      Outcome.returned (some (WithHook request.Context hook))
        (some { Header := request.Header, Body := payload }) none := by
  have hfn := secretFunc_resolved w ref secret href hres
  have hp : w.scmClient.Parse request.Header payload (secretFunc w) = Except.ok hook := by
    by_cases hne : secret = ""
    · rw [parse_empty_token w.scmClient request.Header payload (secretFunc w)
        (fun hk => by rw [hfn hk, hne])]
      exact hparse
    · exact (parse_token_ok_iff w.scmClient request.Header payload (secretFunc w) secret hook
        hfn hne).2 ⟨hparse, htoken⟩
  rw [executeTrigger_parsed w request body payload hook hbody hread hp]
  unfold eventCheck
  simp only [hnofilter]

/-- C6 at the test `valid header for secret`: secret and token are both
`secret`, the payload is an empty JSON object, and the response carries those
bytes. -/
theorem c6_matching_token_echoes_witness :
    ExecuteTrigger (testInterceptor (secretStore "secret") ⟨some mysecret, none⟩)
        (testRequest "\x7b\x7d" "secret" "Push Hook") =
      Outcome.returned
        (some (WithHook (testRequest "\x7b\x7d" "secret" "Push Hook").Context
          (Webhook.PushHook "" ⟨""⟩)))
        (some { Header := (testRequest "\x7b\x7d" "secret" "Push Hook").Header,
                Body := "\x7b\x7d" })
        none :=
  c6_matching_token_echoes (testInterceptor (secretStore "secret") ⟨some mysecret, none⟩)
    (testRequest "\x7b\x7d" "secret" "Push Hook") ⟨Except.ok "\x7b\x7d"⟩ "\x7b\x7d"
    (Webhook.PushHook "" ⟨""⟩) mysecret "secret"
    (by decide) (by decide) (by decide) (by decide) (by decide) (by decide) (by decide)

/-- C7 fails in its second half for a secret whose value is empty: a secret and
an allow-list are both configured, the token `foo` of the request is not the
secret, and the request succeeds. -/
theorem c7_empty_secret_invalid_token_succeeds :
    (testInterceptor (secretStore "") ⟨some mysecret, some ["Push Hook"]⟩).GitLab.SecretRef
      = some mysecret ∧
    GetSecretToken (secretStore "") mysecret "" = Except.ok "" ∧
    (testRequest "\x7b\x7d" "foo" "Push Hook").Header.Get "X-GitLab-Token" = "foo" ∧
    ExecuteTrigger (testInterceptor (secretStore "") ⟨some mysecret, some ["Push Hook"]⟩)
        (testRequest "\x7b\x7d" "foo" "Push Hook") =
      Outcome.returned (some [CtxEntry.hook (Webhook.PushHook "" ⟨""⟩)])
        (some { Header := fooPushHeader, Body := "\x7b\x7d" }) none := by
  decide

/-- C7 as amended. With an allow-list configured and a request that carries a
body: if the value of `X-GitLab-Event` is not in the list, `ExecuteTrigger`
returns an error, whatever the secret configuration and the token are; and if
moreover a `SecretRef` is configured that resolves to a secret value that is not
empty, `ExecuteTrigger` succeeds only when the token equals the secret and the
event is in the list. -/
theorem c7_event_rejection_independent (w : Interceptor) (request : Request)
    (body : ReadCloser) (eventTypes : List String)
    (hbody : request.Body = some body)
    (hlist : w.GitLab.EventTypes = some eventTypes) :
    (request.Header.Get "X-GitLab-Event" ∉ eventTypes →
      ∃ err, ExecuteTrigger w request = Outcome.returned none none (some err)) ∧
    (∀ ref secret, w.GitLab.SecretRef = some ref →
      GetSecretToken w.KubeClientSet ref w.EventListenerNamespace = Except.ok secret →
      secret ≠ "" →
      (ExecuteTrigger w request).succeeded = true →
      request.Header.Get "X-GitLab-Token" = secret ∧
        request.Header.Get "X-GitLab-Event" ∈ eventTypes) := by
  constructor
  · intro hnot
    unfold ExecuteTrigger
    simp only [hbody]
    cases hread : ReadAll body with
    | error err => exact ⟨_, rfl⟩
    | ok payload =>
      simp only []
      cases hparse : w.scmClient.Parse request.Header payload (secretFunc w) with
      | error err => exact ⟨_, rfl⟩
      | ok hook =>
        have hal : isAllowed (request.Header.Get "X-GitLab-Event") eventTypes = false := by
          cases hb : isAllowed (request.Header.Get "X-GitLab-Event") eventTypes with
          | false => rfl
          | true => exact absurd ((isAllowed_iff_mem _ _).1 hb) hnot
        simp only [eventCheck, hlist, hal]
        exact ⟨_, rfl⟩
  · intro ref secret href hres hne hsucc
    unfold ExecuteTrigger at hsucc
    simp only [hbody] at hsucc
    cases hread : ReadAll body with
    | error err => simp [hread, Outcome.succeeded] at hsucc
    | ok payload =>
      simp only [hread] at hsucc
      cases hparse : w.scmClient.Parse request.Header payload (secretFunc w) with
      | error err => simp [hparse, Outcome.succeeded] at hsucc
      | ok hook =>
        simp only [hparse, eventCheck, hlist] at hsucc
        refine ⟨((parse_token_ok_iff w.scmClient request.Header payload (secretFunc w)
          secret hook (secretFunc_resolved w ref secret href hres) hne).1 hparse).2, ?_⟩
        cases hb : isAllowed (request.Header.Get "X-GitLab-Event") eventTypes with
        | false => simp [hb, Outcome.succeeded] at hsucc
        | true => exact (isAllowed_iff_mem _ _).1 hb

/-- C7 as amended, at the test `invalid event, valid secret`: the token is the
secret `secrettoken`, the event `baz` is not in the list `foo`, `bar`, and the
call returns an error; and at the test `valid event, valid secret`, which
succeeds: its token is the secret and its event is in the list. -/
theorem c7_event_rejection_independent_witness :
    (∃ err, ExecuteTrigger
        (testInterceptor (secretStore "secrettoken") ⟨some mysecret, some ["foo", "bar"]⟩)
        (testRequest "somepayload" "secrettoken" "baz") = Outcome.returned none none (some err)) ∧
    ((testRequest "\x7b\x7d" "secrettoken" "Push Hook").Header.Get "X-GitLab-Token" = "secrettoken" ∧
      (testRequest "\x7b\x7d" "secrettoken" "Push Hook").Header.Get "X-GitLab-Event"
        ∈ ["Push Hook", "Merge Request Hook"]) :=
  ⟨(c7_event_rejection_independent
      (testInterceptor (secretStore "secrettoken") ⟨some mysecret, some ["foo", "bar"]⟩)
      (testRequest "somepayload" "secrettoken" "baz") ⟨Except.ok "somepayload"⟩ ["foo", "bar"]
      (by decide) (by decide)).1 (by decide),
    (c7_event_rejection_independent
      (testInterceptor (secretStore "secrettoken")
        ⟨some mysecret, some ["Push Hook", "Merge Request Hook"]⟩)
      (testRequest "\x7b\x7d" "secrettoken" "Push Hook") ⟨Except.ok "\x7b\x7d"⟩
      ["Push Hook", "Merge Request Hook"]
      (by decide) (by decide)).2 mysecret "secrettoken" (by decide) (by decide) (by decide)
      (by decide)⟩

/-! ## The nil body -/

/-- C8. A nil request body makes the GitLab `ExecuteTrigger` panic, for every
configuration, all headers and every context: the body is closed and read
without the nil check its sibling interceptors are tested for. -/
theorem c8_nil_body_panics (w : Interceptor) (header : Header) (ctx : Context) :
    ExecuteTrigger w { Body := none, Header := header, ctx := ctx } = Outcome.fault :=
  rfl

/-! ## The returned context -/

/-- C9. Whenever `ExecuteTrigger` returns an error, whichever phase produced
it, the context and the response it returns are both nil. -/
theorem c9_error_returns_nil (w : Interceptor) (request : Request)
    (h : (ExecuteTrigger w request).failed = true) :
    ∃ err, ExecuteTrigger w request = Outcome.returned none none (some err) := by
  cases hout : ExecuteTrigger w request with
  | fault => simp [hout, Outcome.failed] at h
  | returned ctx resp err =>
    cases err with
    | none => simp [hout, Outcome.failed] at h
    | some e =>
      obtain ⟨hc, hr⟩ := executeTrigger_error_shape w request ctx resp e hout
      exact ⟨e, by rw [hc, hr]⟩

/-- C9 at a request whose hook was parsed, and so attached to the context,
before the event check rejected it: event `Push Hook` against the list `foo`,
`bar`. Nothing but the error is returned. -/
theorem c9_error_returns_nil_witness :
    exampleClient.Parse (testRequest "\x7b\x7d" "" "Push Hook").Header "\x7b\x7d"
        (secretFunc (testInterceptor missingStore ⟨none, some ["foo", "bar"]⟩)) =
      Except.ok (Webhook.PushHook "" ⟨""⟩) ∧
    ∃ err, ExecuteTrigger (testInterceptor missingStore ⟨none, some ["foo", "bar"]⟩)
        (testRequest "\x7b\x7d" "" "Push Hook") = Outcome.returned none none (some err) :=
  ⟨by decide,
    c9_error_returns_nil (testInterceptor missingStore ⟨none, some ["foo", "bar"]⟩)
      (testRequest "\x7b\x7d" "" "Push Hook") (by decide)⟩

/-- C10. Whenever `ExecuteTrigger` succeeds, the request had a readable body,
the payload parser produced a hook for it, and `InterceptedHook` on the returned
context finds exactly that hook. -/
theorem c10_success_exposes_hook (w : Interceptor) (request : Request)
    (h : (ExecuteTrigger w request).succeeded = true) :
    ∃ body payload hook ctx resp,
      request.Body = some body ∧ ReadAll body = Except.ok payload ∧
      w.scmClient.parseHook request.Header payload = Except.ok hook ∧
      ExecuteTrigger w request = Outcome.returned (some ctx) (some resp) none ∧
      InterceptedHook ctx = (some hook, true) := by
  cases hbody : request.Body with
  | none => simp [ExecuteTrigger, hbody, Outcome.succeeded] at h
  | some body =>
    cases hread : ReadAll body with
    | error err => simp [ExecuteTrigger, hbody, hread, Outcome.succeeded] at h
    | ok payload =>
      cases hparse : w.scmClient.Parse request.Header payload (secretFunc w) with
      | error err => simp [ExecuteTrigger, hbody, hread, hparse, Outcome.succeeded] at h
      | ok hook =>
        have hexec := executeTrigger_parsed w request body payload hook hbody hread hparse
        cases hev : eventCheck w request with
        | some err =>
          rw [hexec, hev] at h
          simp [Outcome.succeeded] at h
        | none =>
          rw [hev] at hexec
          exact ⟨body, payload, hook, WithHook request.Context hook,
            { Header := request.Header, Body := payload }, rfl, hread,
            parse_ok_parseHook _ _ _ _ _ hparse, hexec, rfl⟩

/-- C10 at the test `adding the hook to the context`: the example parser reads
the payload as a push hook with ref `refs/heads/master` and repository id `15`,
and that hook is the one found in the returned context. -/
theorem c10_success_exposes_hook_witness :
    ∃ ctx resp,
      ExecuteTrigger (testInterceptor missingStore ⟨none, some ["Push Hook"]⟩)
          (testRequest "\x7b\"ref\":\"refs/heads/master\",\"project\":\x7b\"id\":15\x7d\x7d"
            "" "Push Hook") = Outcome.returned (some ctx) (some resp) none ∧
      InterceptedHook ctx = (some (Webhook.PushHook "refs/heads/master" ⟨"15"⟩), true) := by
  obtain ⟨body, payload, hook, ctx, resp, hb, hr, hp, he, hi⟩ :=
    c10_success_exposes_hook (testInterceptor missingStore ⟨none, some ["Push Hook"]⟩)
      (testRequest "\x7b\"ref\":\"refs/heads/master\",\"project\":\x7b\"id\":15\x7d\x7d"
        "" "Push Hook") (by decide)
  refine ⟨ctx, resp, he, ?_⟩
  have hb2 : body = ⟨Except.ok
      "\x7b\"ref\":\"refs/heads/master\",\"project\":\x7b\"id\":15\x7d\x7d"⟩ :=
    (Option.some.inj hb).symm
  subst hb2
  have hr2 : payload = "\x7b\"ref\":\"refs/heads/master\",\"project\":\x7b\"id\":15\x7d\x7d" :=
    (Except.ok.inj hr).symm
  subst hr2
  have hp2 : hook = Webhook.PushHook "refs/heads/master" ⟨"15"⟩ :=
    (Except.ok.inj hp).symm
  rw [hi, hp2]

/-! ## The error messages and the order of the phases -/

/-- The message of the event check starts with the letter `e`, those of the two
earlier phases with `f`. -/
theorem read_error_ne_event_error (err actualEvent : String) :
    "failed to read request body: " ++ err ≠ "event type " ++ actualEvent ++ " is not allowed" := by
  intro h
  have h2 := congrArg (fun s => s.data.head?) h
  simp [String.data_append] at h2

theorem parse_error_ne_event_error (err actualEvent : String) :
    "failed to parse the webhook: " ++ err ≠ "event type " ++ actualEvent ++ " is not allowed" := by
  intro h
  have h2 := congrArg (fun s => s.data.head?) h
  simp [String.data_append] at h2

/-- C18. A request that was read and parsed and whose `X-GitLab-Event` value is
not in the configured allow-list is rejected with the error whose message is
exactly `event type <X-GitLab-Event value> is not allowed`. -/
theorem c18_rejection_names_event (w : Interceptor) (request : Request) (body : ReadCloser)
    (payload : Bytes) (hook : Webhook) (eventTypes : List String)
    (hbody : request.Body = some body) (hread : ReadAll body = Except.ok payload)
    (hparse : w.scmClient.Parse request.Header payload (secretFunc w) = Except.ok hook)
    (hlist : w.GitLab.EventTypes = some eventTypes)
    (hnot : request.Header.Get "X-GitLab-Event" ∉ eventTypes) :
    ExecuteTrigger w request =
      Outcome.returned none none
        (some ("event type " ++ request.Header.Get "X-GitLab-Event" ++ " is not allowed")) := by
  have hal : isAllowed (request.Header.Get "X-GitLab-Event") eventTypes = false := by
    cases hb : isAllowed (request.Header.Get "X-GitLab-Event") eventTypes with
    | false => rfl
    | true => exact absurd ((isAllowed_iff_mem _ _).1 hb) hnot
  rw [executeTrigger_parsed w request body payload hook hbody hread hparse]
  simp only [eventCheck, hlist, hal]
  rfl

/-- C18 at a request with the event `Push Hook` against the allow-list `foo`,
`bar`: the message is `event type Push Hook is not allowed`. -/
theorem c18_rejection_names_event_witness :
    ExecuteTrigger (testInterceptor missingStore ⟨none, some ["foo", "bar"]⟩)
        (testRequest "\x7b\x7d" "" "Push Hook") =
      Outcome.returned none none (some "event type Push Hook is not allowed") :=
  (c18_rejection_names_event (testInterceptor missingStore ⟨none, some ["foo", "bar"]⟩)
    (testRequest "\x7b\x7d" "" "Push Hook") ⟨Except.ok "\x7b\x7d"⟩ "\x7b\x7d"
    (Webhook.PushHook "" ⟨""⟩) ["foo", "bar"]
    (by decide) (by decide) (by decide) (by decide) (by decide)).trans (by decide)

/-- C19. For a request that carries a body the phases run in order and stop at
the first failure: a body that cannot be read gives the error `failed to read
request body: ...`; otherwise a failure of the fused parse and token check gives
`failed to parse the webhook: ...`, whatever the event type and the allow-list
are; only when both succeeded does the event check decide; and an event-type
error is returned only when reading and parsing both succeeded. -/
theorem c19_phases_short_circuit (w : Interceptor) (request : Request) (body : ReadCloser)
    (hbody : request.Body = some body) :
    (∀ err, ReadAll body = Except.error err →
      ExecuteTrigger w request =
        Outcome.returned none none (some ("failed to read request body: " ++ err))) ∧
    (∀ payload err, ReadAll body = Except.ok payload →
      w.scmClient.Parse request.Header payload (secretFunc w) = Except.error err →
      ExecuteTrigger w request =
        Outcome.returned none none (some ("failed to parse the webhook: " ++ err))) ∧
    (∀ payload hook, ReadAll body = Except.ok payload →
      w.scmClient.Parse request.Header payload (secretFunc w) = Except.ok hook →
      ExecuteTrigger w request =
        match eventCheck w request with
        | some err => Outcome.returned none none (some err)
        | none =>
          Outcome.returned (some (WithHook request.Context hook))
            (some { Header := request.Header, Body := payload }) none) ∧
    (∀ ctx resp actualEvent,
      ExecuteTrigger w request =
        Outcome.returned ctx resp (some ("event type " ++ actualEvent ++ " is not allowed")) →
      ∃ payload hook, ReadAll body = Except.ok payload ∧
        w.scmClient.Parse request.Header payload (secretFunc w) = Except.ok hook) := by
  refine ⟨?_, ?_, ?_, ?_⟩
  · intro err hread
    unfold ExecuteTrigger
    simp only [hbody, hread]
  · intro payload err hread hparse
    unfold ExecuteTrigger
    simp only [hbody, hread, hparse]
  · intro payload hook hread hparse
    exact executeTrigger_parsed w request body payload hook hbody hread hparse
  · intro ctx resp actualEvent h
    unfold ExecuteTrigger at h
    simp only [hbody] at h
    cases hread : ReadAll body with
    | error err =>
      simp only [hread] at h
      injection h with _ _ h3
      exact absurd (Option.some.inj h3) (read_error_ne_event_error err actualEvent)
    | ok payload =>
      simp only [hread] at h
      cases hparse : w.scmClient.Parse request.Header payload (secretFunc w) with
      | error err =>
        simp only [hparse] at h
        injection h with _ _ h3
        exact absurd (Option.some.inj h3) (parse_error_ne_event_error err actualEvent)
      | ok hook => exact ⟨payload, hook, rfl, hparse⟩

/-- C19 at the test `invalid event`: the payload `somepayload` does not parse
and the event `baz` is not in the allow-list; the error is the one of the parse
phase. And a body that fails to read is reported as such. -/
theorem c19_phases_short_circuit_witness :
    ExecuteTrigger (testInterceptor missingStore ⟨none, some ["Push Hook", "Merge Request Hook"]⟩)
        (testRequest "somepayload" "" "baz") =
      Outcome.returned none none (some ("failed to parse the webhook: " ++ "unknown webhook")) ∧
    ExecuteTrigger (testInterceptor missingStore ⟨none, some ["Push Hook", "Merge Request Hook"]⟩)
        { Body := some ⟨Except.error "unexpected EOF"⟩, Header := ⟨[]⟩, ctx := [] } =
      Outcome.returned none none (some ("failed to read request body: " ++ "unexpected EOF")) :=
  ⟨(c19_phases_short_circuit
      (testInterceptor missingStore ⟨none, some ["Push Hook", "Merge Request Hook"]⟩)
      (testRequest "somepayload" "" "baz") ⟨Except.ok "somepayload"⟩ (by decide)).2.1
      "somepayload" "unknown webhook" (by decide) (by decide),
    (c19_phases_short_circuit
      (testInterceptor missingStore ⟨none, some ["Push Hook", "Merge Request Hook"]⟩)
      { Body := some ⟨Except.error "unexpected EOF"⟩, Header := ⟨[]⟩, ctx := [] }
      ⟨Except.error "unexpected EOF"⟩ rfl).1 "unexpected EOF" rfl⟩

/-! ## The empty secret -/

/-- C20. A configured secret that resolves to the empty value behaves as no
secret at all: in both cases the callback answers the empty expected token,
`ExecuteTrigger` has the same outcome on every request, and the token check
passes for every payload that parses, whatever the `X-GitLab-Token` header
holds. -/
theorem c20_empty_secret_is_no_secret (w : Interceptor) (request : Request) (ref : SecretRef)
    (href : w.GitLab.SecretRef = some ref)
    (hres : GetSecretToken w.KubeClientSet ref w.EventListenerNamespace = Except.ok "") :
    (∀ hook, secretFunc w hook = Except.ok "" ∧
      secretFunc { w with GitLab := { w.GitLab with SecretRef := none } } hook = Except.ok "") ∧
    ExecuteTrigger w request =
      ExecuteTrigger { w with GitLab := { w.GitLab with SecretRef := none } } request ∧
    (∀ payload hook, w.scmClient.parseHook request.Header payload = Except.ok hook →
      w.scmClient.Parse request.Header payload (secretFunc w) = Except.ok hook) := by
  have hfn : ∀ hook, secretFunc w hook = Except.ok "" :=
    secretFunc_resolved w ref "" href hres
  have hfn2 : secretFunc w =
      secretFunc { w with GitLab := { w.GitLab with SecretRef := none } } := by
    funext hook
    rw [hfn hook]
    rfl
  refine ⟨fun hook => ⟨hfn hook, rfl⟩, ?_, ?_⟩
  · unfold ExecuteTrigger
    rw [hfn2]
    rfl
  · intro payload hook hp
    rw [parse_empty_token w.scmClient request.Header payload (secretFunc w) hfn]
    exact hp

/-- C20 at the request of the test `no secret` with token `foo`, against a
store that holds the empty value under the configured reference: the outcome is
the one without a `SecretRef`, a success. -/
theorem c20_empty_secret_is_no_secret_witness :
    ExecuteTrigger (testInterceptor (secretStore "") ⟨some mysecret, none⟩)
        (testRequest "\x7b\x7d" "foo" "Push Hook") =
      ExecuteTrigger (testInterceptor (secretStore "") ⟨none, none⟩)
        (testRequest "\x7b\x7d" "foo" "Push Hook") ∧
    (ExecuteTrigger (testInterceptor (secretStore "") ⟨none, none⟩)
        (testRequest "\x7b\x7d" "foo" "Push Hook")).succeeded = true :=
  ⟨(c20_empty_secret_is_no_secret (testInterceptor (secretStore "") ⟨some mysecret, none⟩)
      (testRequest "\x7b\x7d" "foo" "Push Hook") mysecret (by decide) (by decide)).2.1,
    by decide⟩

end GitLab

/-! ## The hook in the context -/

/-- C11. Retrieval undoes attachment: for every context and every hook,
`InterceptedHook` on the context `WithHook` returns finds that hook. -/
theorem c11_hook_round_trip (ctx : Context) (hook : Webhook) :
    InterceptedHook (WithHook ctx hook) = (some hook, true) :=
  rfl

/-- C12. A context that holds no hook, because `WithHook` was never applied on
the way to it, yields a nil hook and `false`. -/
theorem c12_no_hook_without_attachment (ctx : Context)
    (hnever : ∀ e ∈ ctx, ∀ hook, e ≠ CtxEntry.hook hook) :
    InterceptedHook ctx = (none, false) := by
  induction ctx with
  | nil => rfl
  | cons e rest ih =>
    cases e with
    | hook h => exact absurd rfl (hnever (CtxEntry.hook h) (List.mem_cons_self _ _) h)
    | foreign key value =>
      unfold InterceptedHook
      exact ih (fun e he hook => hnever e (List.mem_cons_of_mem _ he) hook)

/-- C12 at the background context and at a context in which another package
stored a value. -/
theorem c12_no_hook_without_attachment_witness :
    InterceptedHook [] = (none, false) ∧
    InterceptedHook [CtxEntry.foreign "logger" "sugared"] = (none, false) :=
  ⟨c12_no_hook_without_attachment [] (by intro e he; cases he),
    c12_no_hook_without_attachment [CtxEntry.foreign "logger" "sugared"]
      (by intro e he hook heq; rw [heq] at he; simp at he)⟩

namespace FormDecode

/-! ## Form decoding: auxiliary facts -/

theorem lookup_appendValue (m : Values) (k v key : String) :
    (appendValue m k v).lookup key =
      if k = key then some ((m.lookup key).getD [] ++ [v]) else m.lookup key := by
  induction m with
  | nil =>
    by_cases h : k = key
    · subst h
      simp [appendValue, List.lookup]
    · have h2 : (key == k) = false := by simpa using fun h3 => h h3.symm
      simp [appendValue, List.lookup, h, h2]
  | cons e rest ih =>
    obtain ⟨k0, vs⟩ := e
    unfold appendValue
    by_cases h0 : k0 = k
    · subst h0
      by_cases h : k0 = key
      · subst h
        simp [List.lookup]
      · have h2 : (key == k0) = false := by simpa using fun h3 => h h3.symm
        simp [List.lookup, h, h2]
    · simp only [h0, if_false]
      by_cases h1 : key = k0
      · subst h1
        have h3 : ¬ k = key := fun h4 => h0 h4.symm
        simp [List.lookup, h3]
      · have h2 : (key == k0) = false := by simpa using h1
        simp only [List.lookup, h2]
        exact ih

theorem valuesOf_cons (key k v : String) (rest : List (String × String)) :
    valuesOf key ((k, v) :: rest) =
      if k = key then v :: valuesOf key rest else valuesOf key rest := by
  by_cases hk : k = key <;> simp [valuesOf, List.filter_cons, hk]

/-- The values a map holds under a key after a list of pairs was appended to
it. -/
theorem lookup_foldl_appendValue (pairs : List (String × String)) (m : Values) (key : String) :
    (pairs.foldl (fun acc kv => appendValue acc kv.1 kv.2) m).lookup key =
      match m.lookup key with
      | some vs => some (vs ++ valuesOf key pairs)
      | none => if valuesOf key pairs = [] then none else some (valuesOf key pairs) := by
  induction pairs generalizing m with
  | nil =>
    simp only [List.foldl_nil]
    cases h : List.lookup key m <;> simp [valuesOf]
  | cons kv rest ih =>
    obtain ⟨k, v⟩ := kv
    simp only [List.foldl_cons]
    rw [ih (appendValue m k v), lookup_appendValue, valuesOf_cons]
    by_cases hk : k = key
    · subst hk
      cases h : List.lookup k m <;> simp
    · cases h : List.lookup key m <;> simp [hk]

theorem keys_appendValue (m : Values) (k v : String) :
    (appendValue m k v).map Prod.fst =
      if k ∈ m.map Prod.fst then m.map Prod.fst else m.map Prod.fst ++ [k] := by
  induction m with
  | nil => simp [appendValue]
  | cons e rest ih =>
    obtain ⟨k0, vs⟩ := e
    unfold appendValue
    by_cases h0 : k0 = k
    · subst h0
      simp
    · have h1 : ¬ k = k0 := fun h => h0 h.symm
      simp only [h0, if_false, List.map_cons, ih, List.mem_cons, h1, false_or]
      by_cases hm : k ∈ rest.map Prod.fst
      · simp [hm]
      · simp [hm]

theorem nodup_keys_appendValue (m : Values) (k v : String) (h : (m.map Prod.fst).Nodup) :
    ((appendValue m k v).map Prod.fst).Nodup := by
  rw [keys_appendValue]
  by_cases hm : k ∈ m.map Prod.fst
  · simpa [hm] using h
  · simp only [hm, if_false]
    rw [List.nodup_append]
    refine ⟨h, List.nodup_singleton k, ?_⟩
    intro a ha hb
    rw [List.mem_singleton] at hb
    subst hb
    exact hm ha

theorem nonempty_values_appendValue (m : Values) (k v : String)
    (h : ∀ e ∈ m, e.2 ≠ []) : ∀ e ∈ appendValue m k v, e.2 ≠ [] := by
  induction m with
  | nil =>
    intro e he
    simp [appendValue] at he
    subst he
    simp
  | cons e0 rest ih =>
    obtain ⟨k0, vs⟩ := e0
    unfold appendValue
    by_cases h0 : k0 = k
    · simp only [h0, if_true]
      intro e he
      rcases List.mem_cons.1 he with he1 | he1
      · subst he1
        simp
      · exact h e (List.mem_cons_of_mem _ he1)
    · simp only [h0, if_false]
      intro e he
      rcases List.mem_cons.1 he with he1 | he1
      · subst he1
        exact h (k0, vs) (List.mem_cons_self _ _)
      · exact ih (fun e2 he2 => h e2 (List.mem_cons_of_mem _ he2)) e he1

/-- The map of `ParseQuery` is the pairs of the query appended one by one. -/
theorem parseQuery_values_foldl (lib : GoLib) (segs : List (List Char))
    (acc : Values × Option Error) :
    (segs.foldl (parseSegment lib) acc).1 =
      (segs.filterMap (fun seg =>
        match decodeSegment lib seg with
        | some (Except.ok kv) => some kv
        | _ => none)).foldl (fun m kv => appendValue m kv.1 kv.2) acc.1 := by
  induction segs generalizing acc with
  | nil => rfl
  | cons seg rest ih =>
    simp only [List.foldl_cons, List.filterMap_cons]
    rw [ih]
    unfold parseSegment
    cases hd : decodeSegment lib seg with
    | none => rfl
    | some res =>
      cases res with
      | error err => rfl
      | ok kv => rfl

theorem parseQuery_values (lib : GoLib) (query : String) :
    (ParseQuery lib query).1 =
      (queryPairs lib query).foldl (fun m kv => appendValue m kv.1 kv.2) [] :=
  parseQuery_values_foldl lib (segments query.data) ([], none)

theorem foldl_appendValue_invariant (pairs : List (String × String)) (m : Values)
    (hn : (m.map Prod.fst).Nodup) (hv : ∀ e ∈ m, e.2 ≠ []) :
    ((pairs.foldl (fun acc kv => appendValue acc kv.1 kv.2) m).map Prod.fst).Nodup ∧
    ∀ e ∈ pairs.foldl (fun acc kv => appendValue acc kv.1 kv.2) m, e.2 ≠ [] := by
  induction pairs generalizing m with
  | nil => exact ⟨hn, hv⟩
  | cons kv rest ih =>
    simp only [List.foldl_cons]
    exact ih (appendValue m kv.1 kv.2) (nodup_keys_appendValue m kv.1 kv.2 hn)
      (nonempty_values_appendValue m kv.1 kv.2 hv)

/-- In the map of `ParseQuery` no key occurs twice and every key has a value. -/
theorem parseQuery_invariant (lib : GoLib) (query : String) :
    ((ParseQuery lib query).1.map Prod.fst).Nodup ∧
    ∀ e ∈ (ParseQuery lib query).1, e.2 ≠ [] := by
  rw [parseQuery_values]
  exact foldl_appendValue_invariant _ [] List.nodup_nil (by intro e he; cases he)

/-- The values `ParseQuery` holds under a key are the values the query gives to
that key, in their order of appearance. -/
theorem parseQuery_lookup (lib : GoLib) (query key : String) :
    (ParseQuery lib query).1.lookup key =
      if valuesOf key (queryPairs lib query) = [] then none
      else some (valuesOf key (queryPairs lib query)) := by
  rw [parseQuery_values, lookup_foldl_appendValue]
  rfl

/-- `ParseForm` on a request that was not parsed before, with one of the three
methods whose body is read, the form media type, a readable body within the
size limit, and a URL query, if any, without error: the posted values are those
of the body and the error is the one of parsing the body. -/
theorem parseForm_post (lib : GoLib) (r : Request) (body : ReadCloser) (payload : Bytes)
    (hmethod : r.Method = "POST" ∨ r.Method = "PUT" ∨ r.Method = "PATCH")
    (hpost : r.PostForm = none)
    (hurl : r.Form = none → ∀ u, r.URL = some u → (ParseQuery lib u.RawQuery).2 = none)
    (hct : formMediaType lib r = ("application/x-www-form-urlencoded", none))
    (hbody : r.Body = some body) (hread : ReadAll body = Except.ok payload)
    (hsize : payload.length ≤ maxFormSize) :
    ParseForm lib r = ((ParseQuery lib payload).1, (ParseQuery lib payload).2) := by
  have hsz : ¬ payload.length > maxFormSize := Nat.not_lt.2 hsize
  have hpp : parsePostForm lib r =
      (some (ParseQuery lib payload).1, (ParseQuery lib payload).2) := by
    unfold parsePostForm
    simp only [hbody, hct, hread, hsz, if_true, if_false]
  unfold ParseForm
  simp only [hpost, hmethod, if_true, hpp]
  cases hf : r.Form with
  | some f => rfl
  | none =>
    cases hu : r.URL with
    | none => rfl
    | some u =>
      cases hq : (ParseQuery lib payload).2 with
      | some e => rfl
      | none =>
        simp only []
        rw [hurl hf u hu]

/-- A body beyond the size limit makes `ParseForm` fail, whatever it holds. -/
theorem parseForm_too_large (lib : GoLib) (r : Request) (body : ReadCloser) (payload : Bytes)
    (hmethod : r.Method = "POST" ∨ r.Method = "PUT" ∨ r.Method = "PATCH")
    (hpost : r.PostForm = none)
    (hct : formMediaType lib r = ("application/x-www-form-urlencoded", none))
    (hbody : r.Body = some body) (hread : ReadAll body = Except.ok payload)
    (hsize : payload.length > maxFormSize) :
    ParseForm lib r = ([], some "http: POST too large") := by
  have hpp : parsePostForm lib r = (none, some "http: POST too large") := by
    unfold parsePostForm
    simp only [hbody, hct, hread, hsize, if_true]
  unfold ParseForm
  simp only [hpost, hmethod, if_true, hpp]
  cases hf : r.Form with
  | some f => rfl
  | none =>
    cases hu : r.URL with
    | none => rfl
    | some u => rfl

theorem executeTrigger_too_large (lib : GoLib) (w : Interceptor) (r : Request)
    (body : ReadCloser) (payload : Bytes)
    (hmethod : r.Method = "POST" ∨ r.Method = "PUT" ∨ r.Method = "PATCH")
    (hpost : r.PostForm = none)
    (hct : formMediaType lib r = ("application/x-www-form-urlencoded", none))
    (hbody : r.Body = some body) (hread : ReadAll body = Except.ok payload)
    (hsize : payload.length > maxFormSize) :
    ExecuteTrigger lib w r =
      Outcome.returned none (some ("failed to parse form data: " ++ "http: POST too large")) := by
  unfold ExecuteTrigger
  rw [parseForm_too_large lib r body payload hmethod hpost hct hbody hread hsize]

/-- On a map in which every key has a value, `flattenMap` does not panic and
gives every key the first of its values. -/
theorem flattenMap_total (m : Values) (hv : ∀ e ∈ m, e.2 ≠ []) :
    flattenMap m = some (m.map (fun e => (e.1, e.2.headD ""))) := by
  induction m with
  | nil => rfl
  | cons e rest ih =>
    obtain ⟨k, vs⟩ := e
    cases vs with
    | nil => exact absurd rfl (hv (k, []) (List.mem_cons_self _ _))
    | cons first more =>
      unfold flattenMap
      simp only [ih (fun e2 he2 => hv e2 (List.mem_cons_of_mem _ he2))]
      rfl

theorem lookup_map_values {α β : Type} (f : α → β) (m : List (String × α)) (key : String) :
    (m.map (fun e => (e.1, f e.2))).lookup key = (m.lookup key).map f := by
  induction m with
  | nil => rfl
  | cons e rest ih =>
    obtain ⟨k, v⟩ := e
    simp only [List.map_cons, List.lookup]
    cases hk : key == k
    · exact ih
    · rfl

theorem lookup_filter_ne (l : List (String × List String)) (k key : String) (h : key ≠ k) :
    (l.filter (fun e => e.1 != k)).lookup key = l.lookup key := by
  induction l with
  | nil => rfl
  | cons e rest ih =>
    obtain ⟨k0, vs⟩ := e
    by_cases h0 : k0 = k
    · subst h0
      have h2 : (key == k0) = false := by simpa using h
      simp [List.filter_cons, List.lookup, h2, ih]
    · have h1 : (k0 != k) = true := by simpa using h0
      simp only [List.filter_cons, h1, if_true, List.lookup]
      cases hk : key == k0
      · exact ih
      · rfl

/-! ### A body of one long key -/

theorem segments_replicate (n : Nat) :
    segments (List.replicate n 'a') = [List.replicate n 'a'] := by
  induction n with
  | zero => rfl
  | succ n ih =>
    have hsep : ¬ ('a' = '&' ∨ 'a' = ';') := by decide
    rw [List.replicate_succ]
    unfold segments
    simp only [hsep, if_false, ih]

theorem cutEq_replicate (n : Nat) :
    cutEq (List.replicate n 'a') = (List.replicate n 'a', []) := by
  induction n with
  | zero => rfl
  | succ n ih =>
    have hne : ¬ 'a' = '=' := by decide
    rw [List.replicate_succ]
    unfold cutEq
    simp only [hne, if_false, ih]

theorem unescape_replicate (n : Nat) :
    unescape (List.replicate n 'a') = Except.ok (List.replicate n 'a') := by
  induction n with
  | zero => rfl
  | succ n ih =>
    have h1 : ¬ 'a' = '%' := by decide
    have h2 : ¬ 'a' = '+' := by decide
    rw [List.replicate_succ]
    unfold unescape
    simp only [h1, h2, if_false, ih]

/-- A query of `n + 1` letters `a` is valid form data: one key with an empty
value, and no error. -/
theorem parseQuery_replicate (lib : GoLib) (n : Nat) :
    ParseQuery lib (String.mk (List.replicate (n + 1) 'a')) =
      ([(String.mk (List.replicate (n + 1) 'a'), [""])], none) := by
  have hne : ¬ List.replicate (n + 1) 'a' = [] := by
    rw [List.replicate_succ]
    exact List.cons_ne_nil _ _
  have hd : decodeSegment lib (List.replicate (n + 1) 'a') =
      some (Except.ok (String.mk (List.replicate (n + 1) 'a'), "")) := by
    unfold decodeSegment
    simp only [hne, if_false, cutEq_replicate, QueryUnescape, unescape_replicate]
    rfl
  unfold ParseQuery
  simp only [segments_replicate, List.foldl_cons, List.foldl_nil, parseSegment, hd]
  rfl

/-- A success of `ExecuteTrigger` carries a response whose header map is the
one of the request with `Content-Type` set. -/
theorem executeTrigger_success_shape (lib : GoLib) (w : Interceptor) (r : Request)
    (resp : Option Response)
    (hsucc : ExecuteTrigger lib w r = Outcome.returned resp none) :
    ∃ hdr payload, r.Header = some hdr ∧
      resp = some { Header := hdr.Set "Content-Type" "application/json", Body := payload } := by
  unfold ExecuteTrigger at hsucc
  cases hpf : ParseForm lib r with
  | mk postForm err =>
    rw [hpf] at hsucc
    cases err with
    | some e => simp at hsucc
    | none =>
      simp only [] at hsucc
      cases hh : r.Header with
      | none =>
        rw [hh] at hsucc
        split at hsucc <;> cases hsucc
      | some hdr =>
        rw [hh] at hsucc
        split at hsucc
        · cases hsucc
        · injection hsucc with h1 _
          exact ⟨hdr, _, rfl, h1.symm⟩

/-! ## Form decoding: the response -/

/-- C13 fails for a body beyond the limit of `ParseForm`: a body of
`maxFormSize + 1` letters `a` is valid form data, one key with an empty value,
and the POST request that carries it is rejected. -/
theorem c13_large_body_rejected :
    ParseQuery exampleLib largeBody = ([(largeBody, [""])], none) ∧
    largeBody.length = maxFormSize + 1 ∧
    ExecuteTrigger exampleLib ⟨⟨"foo", false⟩⟩ (formRequest "POST" largeBody) =
      Outcome.returned none (some "failed to parse form data: http: POST too large") := by
  have hlen : largeBody.length = maxFormSize + 1 := by
    show (List.replicate 10485761 'a').length = 10485760 + 1
    rw [List.length_replicate]
  refine ⟨parseQuery_replicate exampleLib 10485760, hlen, ?_⟩
  refine (executeTrigger_too_large exampleLib ⟨⟨"foo", false⟩⟩ (formRequest "POST" largeBody)
    ⟨Except.ok largeBody⟩ largeBody (Or.inl rfl) rfl (by decide) rfl rfl ?_).trans (by decide)
  rw [hlen]
  exact Nat.lt_succ_self _

/-- C13 as amended. For a request with method POST, PUT or PATCH that was not
parsed before, whose content type is the form media type and whose URL query,
if there is one, parses: if the body is valid form data of at most `maxFormSize`
bytes and `Flatten` is false, `ExecuteTrigger` succeeds; the response body is
the JSON object with the single member `Prefix`, whose value is the object of
the posted values with the keys in order; no key occurs twice in it, and the
list under each key holds the decoded values the body gives to that key, in
their order of appearance. -/
theorem c13_unflattened_output (lib : GoLib) (w : Interceptor) (r : Request) (h : Header)
    (body : ReadCloser) (payload : Bytes)
    (hmethod : r.Method = "POST" ∨ r.Method = "PUT" ∨ r.Method = "PATCH")
    (hpost : r.PostForm = none)
    (hurl : r.Form = none → ∀ u, r.URL = some u → (ParseQuery lib u.RawQuery).2 = none)
    (hheader : r.Header = some h)
    (hct : formMediaType lib r = ("application/x-www-form-urlencoded", none))
    (hbody : r.Body = some body) (hread : ReadAll body = Except.ok payload)
    (hsize : payload.length ≤ maxFormSize)
    (hvalid : (ParseQuery lib payload).2 = none)
    (hflat : w.FormDecode.Flatten = false) :
    ExecuteTrigger lib w r =
      Outcome.returned
        (some { Header := h.Set "Content-Type" "application/json",
                Body := "\x7b" ++ encodeString w.FormDecode.Prefix ++ ":" ++
                  encodeMap encodeStrings (ParseQuery lib payload).1 ++ "\x7d" }) none ∧
    ((ParseQuery lib payload).1.map Prod.fst).Nodup ∧
    ∀ key, (ParseQuery lib payload).1.lookup key =
      if valuesOf key (queryPairs lib payload) = [] then none
      else some (valuesOf key (queryPairs lib payload)) := by
  refine ⟨?_, (parseQuery_invariant lib payload).1, parseQuery_lookup lib payload⟩
  unfold ExecuteTrigger
  rw [parseForm_post lib r body payload hmethod hpost hurl hct hbody hread hsize, hvalid]
  simp only [hflat, hheader, Marshal]
  rfl

/-- C13 as amended, at the test `unflattened body`: the response bytes are
those the test expects. -/
theorem c13_unflattened_output_witness :
    ExecuteTrigger exampleLib ⟨⟨"foo", false⟩⟩
        (formRequest "POST" "field1=value1&field2=value2") =
      Outcome.returned
        (some { Header := jsonHeader,
                Body := "\x7b\"foo\":\x7b\"field1\":[\"value1\"],\"field2\":[\"value2\"]\x7d\x7d" })
        none :=
  (c13_unflattened_output exampleLib ⟨⟨"foo", false⟩⟩
    (formRequest "POST" "field1=value1&field2=value2")
    ⟨[("Content-Type", ["application/x-www-form-urlencoded"])]⟩
    ⟨Except.ok "field1=value1&field2=value2"⟩ "field1=value1&field2=value2"
    (Or.inl rfl) rfl (by intro _ u hu; cases hu) rfl (by decide) rfl rfl (by decide)
    (by decide) rfl).1.trans (by decide)

/-- C14 fails for a body beyond the limit of `ParseForm`: a body of
`maxFormSize + 1` letters `a` is valid form data, and the POST request that
carries it is rejected although `Flatten` is set. -/
theorem c14_large_body_rejected :
    ParseQuery exampleLib largeBody = ([(largeBody, [""])], none) ∧
    largeBody.length = maxFormSize + 1 ∧
    ExecuteTrigger exampleLib ⟨⟨"bar", true⟩⟩ (formRequest "POST" largeBody) =
      Outcome.returned none (some "failed to parse form data: http: POST too large") := by
  have hlen : largeBody.length = maxFormSize + 1 := by
    show (List.replicate 10485761 'a').length = 10485760 + 1
    rw [List.length_replicate]
  refine ⟨parseQuery_replicate exampleLib 10485760, hlen, ?_⟩
  refine (executeTrigger_too_large exampleLib ⟨⟨"bar", true⟩⟩ (formRequest "POST" largeBody)
    ⟨Except.ok largeBody⟩ largeBody (Or.inl rfl) rfl (by decide) rfl rfl ?_).trans (by decide)
  rw [hlen]
  exact Nat.lt_succ_self _

/-- C14 as amended. For a request with method POST, PUT or PATCH that was not
parsed before, whose content type is the form media type and whose URL query,
if there is one, parses: if the body is valid form data of at most `maxFormSize`
bytes and `Flatten` is true, `flattenMap` does not panic and `ExecuteTrigger`
succeeds; the response body is the JSON object with the single member `Prefix`,
whose value is the object of the flattened map; that map has the keys of the
posted values, and under each key the first decoded value the body gives to
that key, as a plain string, the later ones being dropped. -/
theorem c14_flattened_output (lib : GoLib) (w : Interceptor) (r : Request) (h : Header)
    (body : ReadCloser) (payload : Bytes)
    (hmethod : r.Method = "POST" ∨ r.Method = "PUT" ∨ r.Method = "PATCH")
    (hpost : r.PostForm = none)
    (hurl : r.Form = none → ∀ u, r.URL = some u → (ParseQuery lib u.RawQuery).2 = none)
    (hheader : r.Header = some h)
    (hct : formMediaType lib r = ("application/x-www-form-urlencoded", none))
    (hbody : r.Body = some body) (hread : ReadAll body = Except.ok payload)
    (hsize : payload.length ≤ maxFormSize)
    (hvalid : (ParseQuery lib payload).2 = none)
    (hflat : w.FormDecode.Flatten = true) :
    ∃ flattened,
      flattenMap (ParseQuery lib payload).1 = some flattened ∧
      ExecuteTrigger lib w r =
        Outcome.returned
          (some { Header := h.Set "Content-Type" "application/json",
                  Body := "\x7b" ++ encodeString w.FormDecode.Prefix ++ ":" ++
                    encodeMap encodeString flattened ++ "\x7d" }) none ∧
      flattened.map Prod.fst = (ParseQuery lib payload).1.map Prod.fst ∧
      (flattened.map Prod.fst).Nodup ∧
      ∀ key, flattened.lookup key = (valuesOf key (queryPairs lib payload)).head? := by
  have hflatten := flattenMap_total (ParseQuery lib payload).1 (parseQuery_invariant lib payload).2
  have hkeys : ((ParseQuery lib payload).1.map (fun e => (e.1, e.2.headD ""))).map Prod.fst =
      (ParseQuery lib payload).1.map Prod.fst := by
    rw [List.map_map]
    rfl
  refine ⟨_, hflatten, ?_, hkeys, ?_, ?_⟩
  · unfold ExecuteTrigger
    rw [parseForm_post lib r body payload hmethod hpost hurl hct hbody hread hsize, hvalid]
    simp only [hflat, hheader, Marshal, hflatten]
    rfl
  · rw [hkeys]
    exact (parseQuery_invariant lib payload).1
  · intro key
    rw [lookup_map_values (fun vs => vs.headD "") (ParseQuery lib payload).1 key,
      parseQuery_lookup]
    cases hv : valuesOf key (queryPairs lib payload) with
    | nil => rfl
    | cons first more => rfl

/-- C14 as amended, at the test `flattened body`, whose response bytes are those
the test expects, and at a body that repeats a key, of which only the first
value is kept. -/
theorem c14_flattened_output_witness :
    (∃ flattened,
      flattenMap (ParseQuery exampleLib "field1=value1&field2=value2").1 = some flattened ∧
      ExecuteTrigger exampleLib ⟨⟨"bar", true⟩⟩
          (formRequest "POST" "field1=value1&field2=value2") =
        Outcome.returned
          (some { Header := Header.Set ⟨[("Content-Type", ["application/x-www-form-urlencoded"])]⟩
                    "Content-Type" "application/json",
                  Body := "\x7b" ++ encodeString "bar" ++ ":" ++
                    encodeMap encodeString flattened ++ "\x7d" }) none ∧
      flattened.map Prod.fst =
        (ParseQuery exampleLib "field1=value1&field2=value2").1.map Prod.fst ∧
      (flattened.map Prod.fst).Nodup ∧
      ∀ key, flattened.lookup key =
        (valuesOf key (queryPairs exampleLib "field1=value1&field2=value2")).head?) ∧
    ExecuteTrigger exampleLib ⟨⟨"bar", true⟩⟩
        (formRequest "POST" "field1=value1&field2=value2") =
      Outcome.returned
        (some { Header := jsonHeader,
                Body := "\x7b\"bar\":\x7b\"field1\":\"value1\",\"field2\":\"value2\"\x7d\x7d" })
        none ∧
    ExecuteTrigger exampleLib ⟨⟨"bar", true⟩⟩ (formRequest "POST" "a=1&b=2&a=3") =
      Outcome.returned
        (some { Header := jsonHeader, Body := "\x7b\"bar\":\x7b\"a\":\"1\",\"b\":\"2\"\x7d\x7d" })
        none :=
  ⟨c14_flattened_output exampleLib ⟨⟨"bar", true⟩⟩
      (formRequest "POST" "field1=value1&field2=value2")
      ⟨[("Content-Type", ["application/x-www-form-urlencoded"])]⟩
      ⟨Except.ok "field1=value1&field2=value2"⟩ "field1=value1&field2=value2"
      (Or.inl rfl) rfl (by intro _ u hu; cases hu) rfl (by decide) rfl rfl (by decide)
      (by decide) rfl,
    by decide, by decide⟩

/-- C15. The request of the test `invalid query body`, which has no method, is
not rejected: its body is not read and the response holds an empty object. The
same body sent with POST is not rejected either: `key1&&=2` parses as the key
`key1` with an empty value and the empty key with the value `2`. A malformed
percent-encoding in a POST body is rejected, with the message the test looks
for. -/
theorem c15_stray_separators_accepted :
    ExecuteTrigger exampleLib ⟨⟨"foo", false⟩⟩ (formRequest "" "key1&&=2") =
      Outcome.returned (some { Header := jsonHeader, Body := "\x7b\"foo\":\x7b\x7d\x7d" }) none ∧
    ParseQuery exampleLib "key1&&=2" = ([("key1", [""]), ("", ["2"])], none) ∧
    ExecuteTrigger exampleLib ⟨⟨"foo", false⟩⟩ (formRequest "POST" "key1&&=2") =
      Outcome.returned
        (some { Header := jsonHeader,
                Body := "\x7b\"foo\":\x7b\"\":[\"2\"],\"key1\":[\"\"]\x7d\x7d" }) none ∧
    ExecuteTrigger exampleLib ⟨⟨"foo", false⟩⟩ (formRequest "POST" "key1=%zz") =
      Outcome.returned none
        (some "failed to parse form data: invalid URL escape \"%zz\"") := by
  decide

/-- C16. Whenever the form-decode `ExecuteTrigger` succeeds, the request had a
header map, the response carries a response whose header map is that map with
`Content-Type` set: the value of `Content-Type` is exactly `application/json`,
and every other key has the values it had in the request. -/
theorem c16_content_type_relabelled (lib : GoLib) (w : Interceptor) (r : Request)
    (resp : Option Response)
    (hsucc : ExecuteTrigger lib w r = Outcome.returned resp none) :
    ∃ hdr res, r.Header = some hdr ∧ resp = some res ∧
      res.Header.Get "Content-Type" = "application/json" ∧
      res.Header.entries.lookup "Content-Type" = some ["application/json"] ∧
      ∀ key, key ≠ "Content-Type" →
        res.Header.entries.lookup key = hdr.entries.lookup key := by
  have hcanon : CanonicalMIMEHeaderKey "Content-Type" = "Content-Type" := by decide
  obtain ⟨hdr, payload, hh, hresp⟩ := executeTrigger_success_shape lib w r resp hsucc
  refine ⟨hdr, _, hh, hresp, ?_, ?_, ?_⟩
  · simp [Header.Get, Header.Set, hcanon, List.lookup]
  · simp [Header.Set, hcanon, List.lookup]
  · intro key hkey
    have h2 : (key == "Content-Type") = false := by simpa using hkey
    simp only [Header.Set, hcanon, List.lookup, h2]
    exact lookup_filter_ne hdr.entries "Content-Type" key hkey

/-- C16 at a POST request with a second header: the response names the content
type `application/json` and still holds the other header. -/
theorem c16_content_type_relabelled_witness :
    ∃ hdr res,
      (some (⟨[("Content-Type", ["application/x-www-form-urlencoded"]),
          ("X-Request-Id", ["42"])]⟩ : Header)) = some hdr ∧
      some ({ Header := ⟨[("Content-Type", ["application/json"]), ("X-Request-Id", ["42"])]⟩,
              Body := "\x7b\"foo\":\x7b\"a\":[\"1\"]\x7d\x7d" } : Response) = some res ∧
      res.Header.Get "Content-Type" = "application/json" ∧
      res.Header.entries.lookup "Content-Type" = some ["application/json"] ∧
      ∀ key, key ≠ "Content-Type" →
        res.Header.entries.lookup key = hdr.entries.lookup key :=
  c16_content_type_relabelled exampleLib ⟨⟨"foo", false⟩⟩
    { Method := "POST", URL := none,
      Header := some ⟨[("Content-Type", ["application/x-www-form-urlencoded"]),
        ("X-Request-Id", ["42"])]⟩,
      Body := some ⟨Except.ok "a=1"⟩, Form := none, PostForm := none }
    (some { Header := ⟨[("Content-Type", ["application/json"]), ("X-Request-Id", ["42"])]⟩,
            Body := "\x7b\"foo\":\x7b\"a\":[\"1\"]\x7d\x7d" })
    (by decide)

/-! ## Form decoding: `flattenMap` and the methods without a form body -/

/-- The posted values `ParseForm` builds for a request that had none are empty
or those of `ParseQuery` on some body. -/
theorem parseForm_fresh_values (lib : GoLib) (r : Request) (hpost : r.PostForm = none) :
    (ParseForm lib r).1 = [] ∨ ∃ payload, (ParseForm lib r).1 = (ParseQuery lib payload).1 := by
  unfold ParseForm
  simp only [hpost]
  by_cases hm : r.Method = "POST" ∨ r.Method = "PUT" ∨ r.Method = "PATCH"
  · simp only [hm, if_true]
    unfold parsePostForm
    cases hb : r.Body with
    | none => exact Or.inl rfl
    | some body =>
      simp only []
      by_cases hct : (formMediaType lib r).1 = "application/x-www-form-urlencoded"
      · simp only [hct, if_true]
        cases hread : ReadAll body with
        | error e => exact Or.inl rfl
        | ok b =>
          simp only []
          by_cases hsz : b.length > maxFormSize
          · simp only [hsz, if_true]
            exact Or.inl trivial
          · simp only [hsz, if_false]
            exact Or.inr ⟨b, rfl⟩
      · simp only [hct, if_false]
        exact Or.inl trivial
  · simp only [hm, if_false]
    exact Or.inl trivial

theorem parseForm_fresh_nonempty (lib : GoLib) (r : Request) (hpost : r.PostForm = none) :
    ∀ e ∈ (ParseForm lib r).1, e.2 ≠ [] := by
  rcases parseForm_fresh_values lib r hpost with h | ⟨payload, h⟩
  · rw [h]
    intro e he
    cases he
  · rw [h]
    exact (parseQuery_invariant lib payload).2

theorem lookup_bind_head (m : Values) (hv : ∀ e ∈ m, e.2 ≠ []) (key : String) :
    (m.lookup key).map (fun vs => vs.headD "") = (m.lookup key).bind List.head? := by
  induction m with
  | nil => rfl
  | cons e rest ih =>
    obtain ⟨k, vs⟩ := e
    simp only [List.lookup]
    cases hk : key == k
    · exact ih (fun e2 he2 => hv e2 (List.mem_cons_of_mem _ he2))
    · cases vs with
      | nil => exact absurd rfl (hv (k, []) (List.mem_cons_self _ _))
      | cons first more => rfl

/-- C21. Every key of the `PostForm` that `ParseForm` produces, for a request
whose `PostForm` is nil so that `ParseForm` builds it, has at least one value;
so `flattenMap` on it does not index out of range and `ExecuteTrigger`, given a
header map, does not panic. And for every map whose value lists are all
non-empty, `flattenMap` returns a map with the same keys in which each key has
the first element of its list. -/
theorem c21_flattenMap_total (lib : GoLib) (r : Request) (hpost : r.PostForm = none) :
    (∀ e ∈ (ParseForm lib r).1, e.2 ≠ []) ∧
    flattenMap (ParseForm lib r).1 =
      some ((ParseForm lib r).1.map (fun e => (e.1, e.2.headD ""))) ∧
    (∀ w : Interceptor, r.Header ≠ none → ExecuteTrigger lib w r ≠ Outcome.fault) ∧
    ∀ m : Values, (∀ e ∈ m, e.2 ≠ []) →
      ∃ flattened, flattenMap m = some flattened ∧
        flattened.map Prod.fst = m.map Prod.fst ∧
        ∀ key, flattened.lookup key = (m.lookup key).bind List.head? := by
  have hne := parseForm_fresh_nonempty lib r hpost
  have hfm := flattenMap_total (ParseForm lib r).1 hne
  refine ⟨hne, hfm, ?_, ?_⟩
  · intro w hh
    unfold ExecuteTrigger
    cases hpf : ParseForm lib r with
    | mk postForm err =>
      rw [hpf] at hfm
      cases err with
      | some e => simp
      | none =>
        cases hhdr : r.Header with
        | none => exact absurd hhdr hh
        | some hdr =>
          cases hfl : w.FormDecode.Flatten with
          | false => simp
          | true => simp [hfm]
  · intro m hv
    refine ⟨_, flattenMap_total m hv, ?_, ?_⟩
    · rw [List.map_map]
      rfl
    · intro key
      rw [lookup_map_values (fun vs => vs.headD "") m key]
      exact lookup_bind_head m hv key

/-- C21 at a POST request whose body repeats a key: every key has a value, and
the flattened map keeps the first value of each. -/
theorem c21_flattenMap_total_witness :
    (∀ e ∈ (ParseForm exampleLib (formRequest "POST" "a=1&b=2&a=3")).1, e.2 ≠ []) ∧
    flattenMap (ParseForm exampleLib (formRequest "POST" "a=1&b=2&a=3")).1 =
      some [("a", "1"), ("b", "2")] ∧
    ExecuteTrigger exampleLib ⟨⟨"bar", true⟩⟩ (formRequest "POST" "a=1&b=2&a=3")
      ≠ Outcome.fault :=
  ⟨(c21_flattenMap_total exampleLib (formRequest "POST" "a=1&b=2&a=3") rfl).1,
    (c21_flattenMap_total exampleLib (formRequest "POST" "a=1&b=2&a=3") rfl).2.1.trans
      (by decide),
    (c21_flattenMap_total exampleLib (formRequest "POST" "a=1&b=2&a=3") rfl).2.2.1
      ⟨⟨"bar", true⟩⟩ (by decide)⟩

end FormDecode

end Triggers
